import Mathlib

/-!
# Verification of the spreadsheet-QA core (models, issue store, engine, commands, history)

Shallow embedding of the Python sources under `src/spreadsheet_qa/core/`:
`models.py`, `issue_store.py`, `engine.py`, `commands.py`, `history.py`,
`template.py`.  Python dicts are modelled as insertion-ordered association
lists with Python-dict semantics (overwrite keeps the original position);
Python cell values are modelled by the inductive type `Value`; YAML/JSON
config values by `JVal`; exceptions by `Except`.
-/

namespace SpreadsheetQA

/-! ## Association lists with Python-dict semantics -/
/-- `d.get(k)` on a Python dict, modelled on an insertion-ordered
association list (first matching key wins). -/
def alGet {κ α : Type} [DecidableEq κ] : List (κ × α) → κ → Option α
  | [], _ => none
  | (k', v) :: rest, k => if k' = k then some v else alGet rest k

/-- `d.get(k, dflt)`. -/
def alGetD {κ α : Type} [DecidableEq κ] (d : List (κ × α)) (k : κ) (dflt : α) : α :=
  (alGet d k).getD dflt

/-- `d[k] = v` on a Python dict: overwriting an existing key keeps its
position, a new key is appended at the end. -/
def alSet {κ α : Type} [DecidableEq κ] : List (κ × α) → κ → α → List (κ × α)
  | [], k, v => [(k, v)]
  | (k', v') :: rest, k, v =>
      if k' = k then (k', v) :: rest else (k', v') :: alSet rest k v

/-- `del d[k]` / `d.pop(k)`: remove the (first) entry with key `k`. -/
def alErase {κ α : Type} [DecidableEq κ] : List (κ × α) → κ → List (κ × α)
  | [], _ => []
  | (k', v') :: rest, k => if k' = k then rest else (k', v') :: alErase rest k

/-- The keys of an association list, in order. -/
def alKeys {κ α : Type} (d : List (κ × α)) : List κ := d.map Prod.fst

/-! ## Python values (cell contents) -/
/-- Model of the Python values that occur as cell contents / `original`
snapshots: `None`, booleans, ints and strings. -/
inductive Value where
  | vNone
  | vBool (b : Bool)
  | vInt (n : Int)
  | vStr (s : String)
  deriving DecidableEq, Repr

/-- Python `str()` on a `Value` (`str(None) = "None"`, `str(True) = "True"`,
ints print in decimal with a leading `-` for negatives). -/
def pyStr : Value → String
  | .vNone => "None"
  | .vBool true => "True"
  | .vBool false => "False"
  | .vInt n => toString n
  | .vStr s => s

/-! ## SHA-256 (`hashlib.sha256`)

Straight implementation over `Nat` with explicit reduction `% 2^32`,
used by `Issue.make_id` (`models.py` line 108). -/
def u32 (n : Nat) : Nat := n % 4294967296

def rotr (k x : Nat) : Nat := u32 ((x >>> k) ||| (x <<< (32 - k)))

def bnot32 (x : Nat) : Nat := x ^^^ 4294967295

def sha256ch (x y z : Nat) : Nat := (x &&& y) ^^^ (bnot32 x &&& z)

def sha256maj (x y z : Nat) : Nat := ((x &&& y) ^^^ (x &&& z)) ^^^ (y &&& z)

def bigSigma0 (x : Nat) : Nat := (rotr 2 x ^^^ rotr 13 x) ^^^ rotr 22 x

def bigSigma1 (x : Nat) : Nat := (rotr 6 x ^^^ rotr 11 x) ^^^ rotr 25 x

def smallSigma0 (x : Nat) : Nat := (rotr 7 x ^^^ rotr 18 x) ^^^ (x >>> 3)

def smallSigma1 (x : Nat) : Nat := (rotr 17 x ^^^ rotr 19 x) ^^^ (x >>> 10)

/-- Whether `n` has a divisor in `[2, n)`, by trial division. -/
def hasFactorBelow (n : Nat) : Nat → Bool
  | 0 => false
  | 1 => false
  | d + 1 => (d + 1 ≥ 2 && n % (d + 1) == 0) || hasFactorBelow n d

def isPrimeNat (n : Nat) : Bool :=
  n ≥ 2 && !hasFactorBelow n (n - 1)

/-- The first `n` primes, in order. -/
def firstPrimes (n : Nat) : List Nat :=
  ((List.range (16 * n + 16)).filter isPrimeNat).take n

/-- Integer cube root by bit-by-bit bisection (enough bits for the
inputs used here). -/
def icbrt (n : Nat) : Nat :=
  (List.range 40).foldl
    (fun acc i =>
      let c := acc + 2 ^ (39 - i)
      if c * c * c ≤ n then c else acc)
    0

/-- The 64 SHA-256 round constants: the first 32 bits of the fractional
parts of the cube roots of the first 64 primes. -/
def sha256K : List Nat :=
  (firstPrimes 64).map (fun p => icbrt (p * 2 ^ 96) % 2 ^ 32)

/-- The initial SHA-256 hash state: the first 32 bits of the fractional
parts of the square roots of the first 8 primes. -/
def sha256H0 : List Nat :=
  (firstPrimes 8).map (fun p => Nat.sqrt (p * 2 ^ 64) % 2 ^ 32)

/-- `k` big-endian bytes of `n`. -/
def beBytes : Nat → Nat → List Nat
  | 0, _ => []
  | k + 1, n => (n >>> (8 * k)) % 256 :: beBytes k n

/-- SHA-256 message padding: append `0x80`, zero bytes up to 56 mod 64,
then the bit length as 8 big-endian bytes. -/
def sha256Pad (msg : List Nat) : List Nat :=
  let padZeros := (55 + 64 - msg.length % 64) % 64
  msg ++ [0x80] ++ List.replicate padZeros 0 ++ beBytes 8 (8 * msg.length)

/-- Split a byte list into 64-byte blocks. -/
def chunks64 (l : List Nat) : List (List Nat) :=
  if h : l = [] then []
  else l.take 64 :: chunks64 (l.drop 64)
termination_by l.length
decreasing_by
  simp only [List.length_drop]
  cases l with
  | nil => exact absurd rfl h
  | cons a t => simp only [List.length_cons]; omega

/-- Group bytes into big-endian 32-bit words. -/
def toWords : List Nat → List Nat
  | a :: b :: c :: d :: rest => (((a * 256 + b) * 256 + c) * 256 + d) :: toWords rest
  | _ => []

/-- Extend the 16 message words to the 64-entry message schedule. -/
def sha256Schedule (ws : List Nat) : List Nat :=
  (List.range 48).foldl
    (fun w _ =>
      let n := w.length
      w ++ [u32 (smallSigma1 (w.getD (n - 2) 0) + w.getD (n - 7) 0 +
                 smallSigma0 (w.getD (n - 15) 0) + w.getD (n - 16) 0)])
    ws

/-- One SHA-256 compression round; `kw` is `K[i] + W[i]` (mod 2^32). -/
def sha256Round (st : List Nat) (kw : Nat) : List Nat :=
  match st with
  | [a, b, c, d, e, f, g, h] =>
      let t1 := u32 (h + bigSigma1 e + sha256ch e f g + kw)
      let t2 := u32 (bigSigma0 a + sha256maj a b c)
      [u32 (t1 + t2), a, b, c, u32 (d + t1), e, f, g]
  | l => l

/-- Process one 64-byte block. -/
def sha256Block (h : List Nat) (block : List Nat) : List Nat :=
  let w := sha256Schedule (toWords block)
  let kws := (sha256K.zip w).map (fun p => u32 (p.1 + p.2))
  let st := kws.foldl sha256Round h
  (h.zip st).map (fun p => u32 (p.1 + p.2))

/-- SHA-256 digest (32 bytes) of a byte list. -/
def sha256Bytes (msg : List Nat) : List Nat :=
  let hfin := (chunks64 (sha256Pad msg)).foldl sha256Block sha256H0
  (hfin.map (beBytes 4)).flatten

def hexDigitChar (n : Nat) : Char :=
  if n < 10 then Char.ofNat (48 + n) else Char.ofNat (87 + n)

def byteToHex (b : Nat) : String :=
  String.mk [hexDigitChar (b / 16), hexDigitChar (b % 16)]

/-- `hashlib.sha256(s.encode()).hexdigest()`. -/
def sha256HexOfString (s : String) : String :=
  String.join ((sha256Bytes ((s.toUTF8.toList).map UInt8.toNat)).map byteToHex)

/-! ## `json.dumps` of the id payload -/
/-- Hex escape `\uXXXX` with four lowercase hex digits. -/
def hex4 (n : Nat) : String :=
  String.mk [hexDigitChar (n / 4096 % 16), hexDigitChar (n / 256 % 16),
             hexDigitChar (n / 16 % 16), hexDigitChar (n % 16)]

/-- JSON escaping of one character (`ensure_ascii=False`, so only
control characters, the quote and the backslash are escaped). -/
def jsonEscapeChar (c : Char) : String :=
  if c = '"' then "\\\""
  else if c = '\\' then "\\\\"
  else if c = '\n' then "\\n"
  else if c = '\t' then "\\t"
  else if c = '\r' then "\\r"
  else if c.toNat = 8 then "\\b"
  else if c.toNat = 12 then "\\f"
  else if c.toNat < 32 then "\\u" ++ hex4 c.toNat
  else String.singleton c

/-- A JSON string literal. -/
def jsonStr (s : String) : String :=
  "\"" ++ String.join (s.toList.map jsonEscapeChar) ++ "\""

/-- `json.dumps([rule_id, col, row, original_str], ensure_ascii=False,
sort_keys=True)` — on a list, `sort_keys` has no effect and the default
item separator is a comma plus a space. -/
def makeIdPayload (rule_id col : String) (row : Nat) (originalStr : String) : String :=
  "[" ++ jsonStr rule_id ++ ", " ++ jsonStr col ++ ", " ++ toString row ++ ", "
      ++ jsonStr originalStr ++ "]"

/-! ## `models.py`: Severity, IssueStatus, Issue -/
inductive Severity where
  | ERROR
  | WARNING
  | SUSPICION
  deriving DecidableEq, Repr

/-- The priority order used by `Severity.__lt__` (`ERROR` has rank 0,
so `min` over severities picks the highest priority). -/
def Severity.rank : Severity → Nat
  | .ERROR => 0
  | .WARNING => 1
  | .SUSPICION => 2

inductive IssueStatus where
  | OPEN
  | FIXED
  | IGNORED
  | EXCEPTED
  deriving DecidableEq, Repr

/-- `Issue` dataclass (`models.py`). `extra` is a free-form dict. -/
structure Issue where
  id : String
  rule_id : String
  severity : Severity
  status : IssueStatus
  row : Nat
  col : String
  original : Value
  message : String
  suggestion : Option Value := none
  extra : List (String × Value) := []
  deriving DecidableEq, Repr

/-- `Issue.make_id`: sha256 of the JSON payload of
`[rule_id, col, row, str(original)]`, truncated to 12 hex characters. -/
def Issue.make_id (rule_id col : String) (row : Nat) (original : Value) : String :=
  (sha256HexOfString (makeIdPayload rule_id col row (pyStr original))).take 12

/-- `Issue.create`: builds an `OPEN` issue whose id is `make_id`. -/
def Issue.create (rule_id : String) (severity : Severity) (row : Nat) (col : String)
    (original : Value) (message : String) (suggestion : Option Value := none)
    (extra : List (String × Value) := []) : Issue :=
  { id := Issue.make_id rule_id col row original
    rule_id := rule_id
    severity := severity
    status := IssueStatus.OPEN
    row := row
    col := col
    original := original
    message := message
    suggestion := suggestion
    extra := extra }

/-! ## YAML/JSON config values and `template.py`'s `deep_merge` -/
/-- Model of the YAML/JSON values that occur in template configs. -/
inductive JVal where
  | null
  | bool (b : Bool)
  | int (n : Int)
  | str (s : String)
  | list (xs : List JVal)
  | dict (d : List (String × JVal))
  deriving Repr

/-- Python truthiness (`bool(v)`) on a `JVal`. -/
def truthy : JVal → Bool
  | .null => false
  | .bool b => b
  | .int n => n != 0
  | .str s => !s.isEmpty
  | .list xs => !xs.isEmpty
  | .dict d => !d.isEmpty

/-- `deep_merge(base, overlay)` from `template.py`: iterate over the
overlay's entries; when both the current result value and the overlay
value are dicts, merge recursively, otherwise the overlay value replaces
the result's value (the source deep-copies, which is implicit in this
functional embedding). -/
def deep_merge (base : List (String × JVal)) : List (String × JVal) → List (String × JVal)
  | [] => base
  | (k, JVal.dict o) :: rest =>
      (match alGet base k with
       | some (JVal.dict b) => deep_merge (alSet base k (JVal.dict (deep_merge b o))) rest
       | _ => deep_merge (alSet base k (JVal.dict o)) rest)
  | (k, v) :: rest => deep_merge (alSet base k v) rest

/-- One overlay entry applied to the running result inside `deep_merge`.
Non-recursive restatement of the loop body of `template.py`'s `deep_merge`. -/
def dmStep (base : List (String × JVal)) (k : String) : JVal → List (String × JVal)
  | JVal.dict o =>
      (match alGet base k with
       | some (JVal.dict b) => alSet base k (JVal.dict (deep_merge b o))
       | _ => alSet base k (JVal.dict o))
  | v => alSet base k v

/-! ## `issue_store.py`: the IssueStore and its three indices -/
/-- The three indices of `IssueStore`: `_by_id`, `_by_col` (col → issue
ids), `_by_cell` ((row, col) → issue ids).  The two `defaultdict(list)`
indices are modelled as association lists whose absent keys read as
`[]` through `alGetD`. -/
structure IssueStore where
  by_id : List (String × Issue)
  by_col : List (String × List String)
  by_cell : List ((Nat × String) × List String)
  deriving Repr

/-- A freshly constructed store (`IssueStore.__init__`). -/
def IssueStore.empty : IssueStore := ⟨[], [], []⟩

/-- `IssueStore._insert`: register an issue in all three indices. -/
def IssueStore.insertIssue (s : IssueStore) (issue : Issue) : IssueStore :=
  { by_id := alSet s.by_id issue.id issue
    by_col := alSet s.by_col issue.col (alGetD s.by_col issue.col [] ++ [issue.id])
    by_cell := alSet s.by_cell (issue.row, issue.col)
        (alGetD s.by_cell (issue.row, issue.col) [] ++ [issue.id]) }

/-- `IssueStore.replace_all`: clear all three indices, then `_insert`
each given issue (the prior state is discarded, so it is not a
parameter here). -/
def IssueStore.replace_all (issues : List Issue) : IssueStore :=
  issues.foldl IssueStore.insertIssue IssueStore.empty

/-- The inner removal loop of `replace_for_columns` for one column's id
bucket: pop each id from `_by_id`, and remove it from its `_by_cell`
bucket, deleting the bucket when it empties.  `_by_col` is not touched
by this loop. -/
def removeIds (bi : List (String × Issue)) (bc : List ((Nat × String) × List String)) :
    List String → List (String × Issue) × List ((Nat × String) × List String)
  | [] => (bi, bc)
  | issue_id :: rest =>
      match alGet bi issue_id with
      | none => removeIds bi bc rest
      | some issue =>
          let bi' := alErase bi issue_id
          let cell_key := (issue.row, issue.col)
          let bc' :=
            match alGet bc cell_key with
            | none => bc
            | some cell_list =>
                if issue_id ∈ cell_list then
                  let cl := cell_list.erase issue_id
                  if cl = [] then alErase bc cell_key else alSet bc cell_key cl
                else bc
          removeIds bi' bc' rest

/-- One iteration of the `for col in cols` removal loop of
`replace_for_columns`: drop every issue currently indexed under `col`,
then reset `_by_col[col]` to `[]`. -/
def IssueStore.removeColumn (s : IssueStore) (col : String) : IssueStore :=
  let p := removeIds s.by_id s.by_cell (alGetD s.by_col col [])
  { by_id := p.1, by_col := alSet s.by_col col [], by_cell := p.2 }

/-- The whole-row sentinel column used by whole-table rules. -/
def wholeRowSentinel : String := "__row__"

/-- `IssueStore.replace_for_columns`: remove the existing issues of the
named columns, then insert those provided issues whose column is in the
set or is the whole-row sentinel. -/
def IssueStore.replace_for_columns (s : IssueStore) (cols : List String)
    (issues : List Issue) : IssueStore :=
  let s' := cols.foldl IssueStore.removeColumn s
  issues.foldl
    (fun st issue =>
      if issue.col ∈ cols ∨ issue.col = wholeRowSentinel then st.insertIssue issue else st)
    s'

/-- `IssueStore.set_status`: update only the status of a stored issue;
an unknown id is a silent no-op. -/
def IssueStore.set_status (s : IssueStore) (issue_id : String)
    (status : IssueStatus) : IssueStore :=
  match alGet s.by_id issue_id with
  | none => s
  | some issue => { s with by_id := alSet s.by_id issue_id { issue with status := status } }

/-- `IssueStore.get`. -/
def IssueStore.get (s : IssueStore) (issue_id : String) : Option Issue :=
  alGet s.by_id issue_id

/-- `IssueStore.by_cell` query: stored issues registered at one cell, in
insertion order. -/
def IssueStore.byCellQuery (s : IssueStore) (row : Nat) (col : String) : List Issue :=
  (alGetD s.by_cell (row, col) []).filterMap (fun i => alGet s.by_id i)

/-- `IssueStore.by_column` query. -/
def IssueStore.byColumnQuery (s : IssueStore) (col : String) : List Issue :=
  (alGetD s.by_col col []).filterMap (fun i => alGet s.by_id i)

/-! ### Store wellformedness (the index-consistency invariant) -/
/-- Index consistency: association keys are unique; every `_by_id` entry
is keyed by its issue's id, appears exactly once in the `_by_col` bucket
of its column and exactly once in the `_by_cell` bucket of its cell; and
every bucket member points back to a stored issue of that column/cell. -/
def IssueStore.Wf (s : IssueStore) : Prop :=
  (alKeys s.by_id).Nodup ∧ (alKeys s.by_col).Nodup ∧ (alKeys s.by_cell).Nodup ∧
  (∀ p ∈ s.by_id, p.2.id = p.1) ∧
  (∀ p ∈ s.by_id, (alGetD s.by_col p.2.col []).count p.1 = 1) ∧
  (∀ p ∈ s.by_id, (alGetD s.by_cell (p.2.row, p.2.col) []).count p.1 = 1) ∧
  (∀ q ∈ s.by_col, ∀ id ∈ q.2, ∃ p ∈ s.by_id, p.1 = id ∧ p.2.col = q.1) ∧
  (∀ q ∈ s.by_cell, ∀ id ∈ q.2, ∃ p ∈ s.by_id, p.1 = id ∧ p.2.row = q.1.1 ∧ p.2.col = q.1.2)

/-- The claim-level reading of the invariant: each stored issue is keyed
by its id and appears exactly once in exactly one by-column bucket and
exactly once in exactly one by-cell bucket. -/
def IssueStore.ExactlyOnce (s : IssueStore) : Prop :=
  ∀ id issue, alGet s.by_id id = some issue →
    issue.id = id
    ∧ (alGetD s.by_col issue.col []).count id = 1
    ∧ (∀ c, c ≠ issue.col → id ∉ alGetD s.by_col c [])
    ∧ (alGetD s.by_cell (issue.row, issue.col) []).count id = 1
    ∧ (∀ key, key ≠ (issue.row, issue.col) → id ∉ alGetD s.by_cell key [])

/-! ### The removal loop of `replace_for_columns` -/
/-- The `_by_cell` update performed for one popped issue inside the
removal loop: erase the id from the bucket at `key`, deleting the bucket
if it empties; no-ops mirror the source's `get`/membership guards. -/
def removeCell (bc : List ((Nat × String) × List String)) (key : Nat × String)
    (issue_id : String) : List ((Nat × String) × List String) :=
  match alGet bc key with
  | none => bc
  | some cell_list =>
      if issue_id ∈ cell_list then
        if cell_list.erase issue_id = [] then alErase bc key
        else alSet bc key (cell_list.erase issue_id)
      else bc

/-- The `_by_id`/`_by_cell` fragment of `Wf`: the invariant of the inner
removal loop, which never reads or writes `_by_col`. -/
def IdCellWf (bi : List (String × Issue))
    (bc : List ((Nat × String) × List String)) : Prop :=
  (alKeys bi).Nodup ∧ (alKeys bc).Nodup ∧
  (∀ p ∈ bi, p.2.id = p.1) ∧
  (∀ p ∈ bi, (alGetD bc (p.2.row, p.2.col) []).count p.1 = 1) ∧
  (∀ q ∈ bc, ∀ id ∈ q.2, ∃ p ∈ bi, p.1 = id ∧ p.2.row = q.1.1 ∧ p.2.col = q.1.2)

/-- The predicate deciding whether `replace_for_columns` inserts an issue. -/
def insertedFor (cols : List String) (i : Issue) : Bool :=
  decide (i.col ∈ cols ∨ i.col = wholeRowSentinel)

/-! ### Operation sequences over the store -/
/-- The three public mutators of `IssueStore`. -/
inductive StoreOp where
  | replaceAll (issues : List Issue)
  | replaceForColumns (cols : List String) (issues : List Issue)
  | setStatus (issue_id : String) (status : IssueStatus)

def applyOp (s : IssueStore) : StoreOp → IssueStore
  | .replaceAll issues => IssueStore.replace_all issues
  | .replaceForColumns cols issues => s.replace_for_columns cols issues
  | .setStatus issue_id status => s.set_status issue_id status

def applyOps (s : IssueStore) (ops : List StoreOp) : IssueStore := ops.foldl applyOp s

/-- Freshness check for one issue handed to `replace_for_columns`: if its
id is already stored, the stored issue's column must be inside the
replaced set (so the removal phase frees the id before re-insertion). -/
def freshOk (s : IssueStore) (cols : List String) (i : Issue) : Bool :=
  match alGet s.by_id i.id with
  | some old => decide (old.col ∈ cols)
  | none => true

/-- Precondition of one mutation: each inserted batch has pairwise
distinct ids, and `replace_for_columns` never inserts an issue whose id
is stored under a column outside the replaced set. -/
def StoreOp.okB (s : IssueStore) : StoreOp → Bool
  | .replaceAll issues => decide (issues.map Issue.id).Nodup
  | .replaceForColumns cols issues =>
      decide ((issues.filter (insertedFor cols)).map Issue.id).Nodup
        && issues.all (fun i => !insertedFor cols i || freshOk s cols i)
  | .setStatus _ _ => true

def OpsOk : IssueStore → List StoreOp → Bool
  | _, [] => true
  | s, op :: rest => op.okB s && OpsOk (applyOp s op) rest

instance (s : IssueStore) : Decidable s.Wf := by
  unfold IssueStore.Wf
  exact inferInstance

/-! ## Claim theorems: C2 and C3 -/
/-- The whole-row issue used by the C2 counterexample; its column is the
whole-row sentinel, as produced by the duplicate-rows rule. -/
def c2RowIssue : Issue :=
  { id := "i1", rule_id := "generic.duplicates.duplicate_row", severity := Severity.ERROR
    status := IssueStatus.OPEN, row := 0, col := "__row__", original := Value.vStr "x"
    message := "duplicate row" }

def wIssueA : Issue :=
  { id := "a1", rule_id := "generic.hygiene.leading_trailing_space"
    severity := Severity.WARNING, status := IssueStatus.OPEN, row := 0, col := "A"
    original := Value.vStr "x ", message := "trailing space", suggestion := some (Value.vStr "x") }

def wIssueB : Issue :=
  { id := "b1", rule_id := "generic.required.missing", severity := Severity.ERROR
    status := IssueStatus.OPEN, row := 1, col := "B", original := Value.vNone
    message := "missing value" }

def wIssueA2 : Issue :=
  { id := "a2", rule_id := "generic.required.missing", severity := Severity.ERROR
    status := IssueStatus.OPEN, row := 2, col := "A", original := Value.vNone
    message := "missing value" }

/-! ## `commands.py` / `history.py`: dataset, commands, undo/redo -/
/-- The data DataFrame: ordered column labels and row/column addressable
cells (`df.at[row, col]`). -/
structure DataFrame where
  columns : List String
  cells : Nat → String → Value

/-- `df.at[row, col] = v`. -/
def DataFrame.setCell (df : DataFrame) (row : Nat) (col : String) (v : Value) : DataFrame :=
  { df with cells := fun r c => if r = row ∧ c = col then v else df.cells r c }

/-- `Patch` dataclass (`models.py`). -/
structure Patch where
  patch_id : String
  action_id : String
  row : Nat
  col : String
  old_value : Value
  new_value : Value
  issue_id : Option String
  timestamp : String
  deriving DecidableEq, Repr

/-- The mutable state around a command: the live DataFrame, the
IssueStore, the PatchWriter sink (patches written; patch ids archived on
`delete`), and an abstract clock read by `_now_iso`.  The optional
ProjectManager action log is an external collaborator and is not part of
the modelled state (commands are built with its default `None`). -/
structure World where
  df : DataFrame
  store : IssueStore
  written : List Patch
  deleted : List String
  clock : Nat

/-- `_now_iso()`: read the clock as an opaque timestamp and advance it. -/
def nowIso (w : World) : String × World :=
  (toString w.clock, { w with clock := w.clock + 1 })

/-- `ApplyCellFixCommand`: constructor arguments plus the mutable
`_patch` field (set by `execute`); `action_id` stands for the uuid drawn
in `__init__`. -/
structure ApplyCellFixCommand where
  row : Nat
  col : String
  old_value : Value
  new_value : Value
  issue_id : Option String := none
  action_id : String
  patch : Option Patch := none
  deriving DecidableEq, Repr

/-- Python truthiness of `self._issue_id` (`None` and `""` are falsy). -/
def issueIdTruthy : Option String → Bool
  | none => false
  | some s => !s.isEmpty

/-- `ApplyCellFixCommand.execute`: write the new value into the cell,
write exactly one Patch through the sink, and mark the referenced issue
FIXED.  Returns the updated command (its `_patch` now set) and world. -/
def ApplyCellFixCommand.execute (cmd : ApplyCellFixCommand) (w : World) :
    ApplyCellFixCommand × World :=
  let tsw := nowIso w
  let w1 := { tsw.2 with df := tsw.2.df.setCell cmd.row cmd.col cmd.new_value }
  let p : Patch :=
    { patch_id := cmd.action_id ++ "_p0", action_id := cmd.action_id, row := cmd.row
      col := cmd.col, old_value := cmd.old_value, new_value := cmd.new_value
      issue_id := cmd.issue_id, timestamp := tsw.1 }
  let w2 := { w1 with written := w1.written ++ [p] }
  let w3 :=
    if issueIdTruthy cmd.issue_id then
      { w2 with store := w2.store.set_status (cmd.issue_id.getD "") IssueStatus.FIXED }
    else w2
  ({ cmd with patch := some p }, w3)

/-- `ApplyCellFixCommand.undo`: restore the old value, archive the patch
("delete" means archive, never destroy), and reset the issue to OPEN. -/
def ApplyCellFixCommand.undo (cmd : ApplyCellFixCommand) (w : World) : World :=
  let w1 := { w with df := w.df.setCell cmd.row cmd.col cmd.old_value }
  let w2 :=
    match cmd.patch with
    | some p => { w1 with deleted := w1.deleted ++ [p.patch_id] }
    | none => w1
  if issueIdTruthy cmd.issue_id then
    { w2 with store := w2.store.set_status (cmd.issue_id.getD "") IssueStatus.OPEN }
  else w2

/-- `BulkCellFixCommand.execute`: run the sub-commands in list order,
threading the world and collecting the updated sub-commands. -/
def bulkExecute : List ApplyCellFixCommand → World → List ApplyCellFixCommand × World
  | [], w => ([], w)
  | c :: cs, w =>
      let cw := c.execute w
      let rest := bulkExecute cs cw.2
      (cw.1 :: rest.1, rest.2)

/-- `BulkCellFixCommand.undo`: run the sub-commands' undos in reverse
list order. -/
def bulkUndo (cmds : List ApplyCellFixCommand) (w : World) : World :=
  cmds.reverse.foldl (fun w c => c.undo w) w

/-- `SetIssueStatusCommand`. -/
structure SetIssueStatusCommand where
  issue_id : String
  new_status : IssueStatus
  old_status : IssueStatus
  deriving DecidableEq, Repr

/-- The `Command` hierarchy of `commands.py`. -/
inductive Command where
  | applyCellFix (c : ApplyCellFixCommand)
  | bulkCellFix (cs : List ApplyCellFixCommand) (label : String)
  | setIssueStatus (c : SetIssueStatusCommand)
  deriving DecidableEq, Repr

def Command.execute : Command → World → Command × World
  | .applyCellFix c, w =>
      let cw := c.execute w
      (.applyCellFix cw.1, cw.2)
  | .bulkCellFix cs label, w =>
      let cw := bulkExecute cs w
      (.bulkCellFix cw.1 label, cw.2)
  | .setIssueStatus c, w =>
      (.setIssueStatus c, { w with store := w.store.set_status c.issue_id c.new_status })

def Command.undoRun : Command → World → World
  | .applyCellFix c, w => c.undo w
  | .bulkCellFix cs _, w => bulkUndo cs w
  | .setIssueStatus c, w => { w with store := w.store.set_status c.issue_id c.old_status }

/-- `CommandHistory`: two stacks, each a `deque(maxlen=max_depth)`. -/
structure CommandHistory where
  max_depth : Nat := 500
  undo_stack : List Command := []
  redo_stack : List Command := []

/-- `deque(maxlen).append`: drop from the opposite end on overflow. -/
def dequeAppend (maxlen : Nat) (st : List Command) (c : Command) : List Command :=
  let st' := st ++ [c]
  if maxlen < st'.length then st'.drop (st'.length - maxlen) else st'

/-- `CommandHistory.push`: execute the command, append it to the undo
stack and clear the redo stack. -/
def CommandHistory.push (h : CommandHistory) (w : World) (cmd : Command) :
    CommandHistory × World :=
  let cw := cmd.execute w
  ({ h with undo_stack := dequeAppend h.max_depth h.undo_stack cw.1, redo_stack := [] },
   cw.2)

/-- `CommandHistory.undo`: pop the undo stack (no-op when empty), run
the command's undo, push it onto the redo stack. -/
def CommandHistory.undo (h : CommandHistory) (w : World) :
    Option Command × CommandHistory × World :=
  match h.undo_stack.reverse with
  | [] => (none, h, w)
  | cmd :: rest =>
      (some cmd,
       { h with undo_stack := rest.reverse
                redo_stack := dequeAppend h.max_depth h.redo_stack cmd },
       cmd.undoRun w)

/-- `CommandHistory.redo`: mirror of `undo`. -/
def CommandHistory.redo (h : CommandHistory) (w : World) :
    Option Command × CommandHistory × World :=
  match h.redo_stack.reverse with
  | [] => (none, h, w)
  | cmd :: rest =>
      let cw := cmd.execute w
      (some cw.1,
       { h with redo_stack := rest.reverse
                undo_stack := dequeAppend h.max_depth h.undo_stack cw.1 },
       cw.2)

/-- `IssueStore.get(...).status` as one query. -/
def IssueStore.statusOf (s : IssueStore) (issue_id : String) : Option IssueStatus :=
  (alGet s.by_id issue_id).map Issue.status

/-! ### Witness material for C4 and C5 -/
def wIssueFix : Issue :=
  { id := "i1", rule_id := "generic.hygiene.leading_trailing_space"
    severity := Severity.WARNING, status := IssueStatus.OPEN, row := 0, col := "Title"
    original := Value.vStr "Intro ", message := "trailing space"
    suggestion := some (Value.vStr "Intro") }

def wWorld : World :=
  { df := { columns := ["Title"]
            cells := fun r c => if r = 0 ∧ c = "Title" then Value.vStr "Intro " else Value.vNone }
    store := IssueStore.replace_all [wIssueFix]
    written := [], deleted := [], clock := 0 }

def wFixCmd : ApplyCellFixCommand :=
  { row := 0, col := "Title", old_value := Value.vStr "Intro "
    new_value := Value.vStr "Intro", issue_id := some "i1", action_id := "deadbeef" }

/-! ## `engine.py` / `rule_base.py`: the rule registry and validation engine -/
/-- A registered rule: stable id, the per-column capability flag, and
its `check` predicate; a raising `check` is an `Except.error`. -/
structure RuleDef where
  rule_id : String
  per_column : Bool
  check : DataFrame → Option String → List (String × JVal) → Except String (List Issue)

/-- `d.get(k, {})` for a dict-valued key (non-dict values read as `{}`;
the source would raise on such malformed configs, which no claim
involves). -/
def getDictD (d : List (String × JVal)) (k : String) : List (String × JVal) :=
  match alGet d k with
  | some (JVal.dict dd) => dd
  | _ => []

/-- `d.pop(k, dflt)`: the popped value and the remaining dict. -/
def pyPop (d : List (String × JVal)) (k : String) (dflt : JVal) :
    JVal × List (String × JVal) :=
  match alGet d k with
  | some v => (v, alErase d k)
  | none => (dflt, d)

/-- `{**a, **b}`: `a`'s keys in order with `b`'s values winning, then
`b`'s remaining keys. -/
def pyDictMerge (a b : List (String × JVal)) : List (String × JVal) :=
  a.map (fun p => (p.1, (alGet b p.1).getD p.2))
    ++ b.filter (fun p => (alGet a p.1).isNone)

/-- `rule_cfg = {**rules_config.get(rule_id, {})}` with its `enabled`
popped (engine.py lines 81-82): the popped value and the residual dict
passed on to the merge and to whole-table checks. -/
def ruleCfgFor (config : List (String × JVal)) (rule_id : String) :
    JVal × List (String × JVal) :=
  pyPop (getDictD (getDictD config "rules") rule_id) "enabled" (JVal.bool true)

/-- `merged_cfg = {**rule_cfg, **col_meta, **rule_level_override}`
before its own `enabled` is popped (engine.py lines 88-95). -/
def mergedCfgFor (config : List (String × JVal)) (rule_id col : String) :
    List (String × JVal) :=
  let col_cfg := getDictD (getDictD config "columns") col
  let rule_level_override := getDictD (getDictD col_cfg "rule_overrides") rule_id
  let col_meta := col_cfg.filter (fun p => p.1 != "rule_overrides")
  pyDictMerge (pyDictMerge (ruleCfgFor config rule_id).2 col_meta) rule_level_override

/-- The Engine boundary around `rule.check`: an exception is caught,
logged and treated as zero issues. -/
def exceptIssues : Except String (List Issue) → List Issue
  | .ok issues => issues
  | .error _ => []

/-- `ValidationEngine.validate` (engine.py lines 34-121): iterate the
registry in order; skip rules whose rules-level `enabled` pops falsy;
run per-column rules over the target columns gated by the merged
`enabled`; run whole-table rules once on full runs only. -/
def validate (reg : List RuleDef) (df : DataFrame) (columns : Option (List String))
    (config : List (String × JVal)) : List Issue :=
  let target_cols := columns.getD df.columns
  reg.foldl
    (fun all_issues rule =>
      let rc := ruleCfgFor config rule.rule_id
      if !truthy rc.1 then all_issues
      else if rule.per_column then
        target_cols.foldl
          (fun acc col =>
            let mc := pyPop (mergedCfgFor config rule.rule_id col) "enabled" (JVal.bool true)
            if !truthy mc.1 then acc
            else acc ++ exceptIssues (rule.check df (some col) mc.2))
          all_issues
      else
        match columns with
        | some _ => all_issues
        | none => all_issues ++ exceptIssues (rule.check df none rc.2))
    []

/-! ### Declarative gates and per-rule contributions -/
/-- The rules-layer gate: `config.rules[rule_id].enabled`, default true,
read by Python truthiness. -/
def ruleEnabled (config : List (String × JVal)) (rule_id : String) : Bool :=
  truthy ((alGet (getDictD (getDictD config "rules") rule_id) "enabled").getD (JVal.bool true))

/-- The per-(rule, column) gate actually enforced by the merge: the
override's `enabled` if that key is present, else the column's
`enabled` if present, else true (the rules-layer `enabled` was popped
before the merge and never reaches this gate). -/
def effectiveEnabled (config : List (String × JVal)) (rule_id col : String) : Bool :=
  let col_cfg := getDictD (getDictD config "columns") col
  let ov := getDictD (getDictD col_cfg "rule_overrides") rule_id
  truthy (((alGet ov "enabled").orElse (fun _ => alGet col_cfg "enabled")).getD (JVal.bool true))

/-- Issues contributed by one (per-column rule, column) pair. -/
def pairIssues (df : DataFrame) (config : List (String × JVal)) (rule : RuleDef)
    (col : String) : List Issue :=
  if effectiveEnabled config rule.rule_id col then
    exceptIssues (rule.check df (some col)
      (pyPop (mergedCfgFor config rule.rule_id col) "enabled" (JVal.bool true)).2)
  else []

/-- Issues contributed by one registered rule in one run. -/
def ruleContribution (df : DataFrame) (columns : Option (List String))
    (config : List (String × JVal)) (rule : RuleDef) : List Issue :=
  if ruleEnabled config rule.rule_id then
    if rule.per_column then
      ((columns.getD df.columns).map (pairIssues df config rule)).flatten
    else
      match columns with
      | some _ => []
      | none => exceptIssues (rule.check df none (ruleCfgFor config rule.rule_id).2)
  else []

/-- Per-value key-uniqueness used for config dicts (Python dicts cannot
carry a duplicate key). -/
def dictKeysNodup : JVal → Prop
  | JVal.dict dd => (alKeys dd).Nodup
  | _ => True

instance : (v : JVal) → Decidable (dictKeysNodup v)
  | JVal.dict dd => inferInstanceAs (Decidable (alKeys dd).Nodup)
  | JVal.null => inferInstanceAs (Decidable True)
  | JVal.bool _ => inferInstanceAs (Decidable True)
  | JVal.int _ => inferInstanceAs (Decidable True)
  | JVal.str _ => inferInstanceAs (Decidable True)
  | JVal.list _ => inferInstanceAs (Decidable True)

/-- Every per-rule dict under `config.rules` has distinct keys. -/
def rulesCfgWf (config : List (String × JVal)) : Prop :=
  ∀ p ∈ getDictD config "rules", dictKeysNodup p.2

instance (config : List (String × JVal)) : Decidable (rulesCfgWf config) := by
  unfold rulesCfgWf
  exact inferInstance

/-! ## Claim theorems: C6, C7, C8 -/
def cexIssue : Issue :=
  { id := "x1", rule_id := "r.test", severity := Severity.WARNING
    status := IssueStatus.OPEN, row := 0, col := "C", original := Value.vStr "v"
    message := "found" }

def cexRule : RuleDef :=
  { rule_id := "r.test", per_column := true, check := fun _ _ _ => Except.ok [cexIssue] }

def cexDf : DataFrame := { columns := ["C"], cells := fun _ _ => Value.vNone }

/-- A config whose column layer disables the rule for column "C" while
its rule_overrides layer re-enables it. -/
def cexConfig : List (String × JVal) :=
  [("rules", JVal.dict [("r.test", JVal.dict [("enabled", JVal.bool true)])]),
   ("columns", JVal.dict
     [("C", JVal.dict
       [("enabled", JVal.bool false),
        ("rule_overrides", JVal.dict
          [("r.test", JVal.dict [("enabled", JVal.bool true)])])])])]

/-- Witness for C7 at the counterexample registry plus one whole-table
rule. -/
def cexGlobalRule : RuleDef :=
  { rule_id := "r.global", per_column := false
    check := fun _ _ _ => Except.ok [{ cexIssue with id := "g1", rule_id := "r.global" }] }

/-- A rule whose check raises on column "B" and reports on column "A". -/
def failRule : RuleDef :=
  { rule_id := "r.fail", per_column := true
    check := fun _ c _ =>
      if c = some "B" then Except.error "boom"
      else Except.ok [{ cexIssue with id := "f1", rule_id := "r.fail", col := "A" }] }

def cexDf2 : DataFrame := { columns := ["A", "B"], cells := fun _ _ => Value.vNone }

/-! ## Association-list lemmas -/
theorem alGet_alSet_self {κ α : Type} [DecidableEq κ] (d : List (κ × α)) (k : κ) (v : α) :
    alGet (alSet d k v) k = some v := by
  induction d with
  | nil => simp [alGet, alSet]
  | cons p rest ih =>
      obtain ⟨k', v'⟩ := p
      by_cases h : k' = k
      · simp [alGet, alSet, h]
      · simp [alGet, alSet, h, ih]

theorem alKeys_cons {κ α : Type} (p : κ × α) (d : List (κ × α)) :
    alKeys (p :: d) = p.1 :: alKeys d := rfl

theorem alGet_alSet_ne {κ α : Type} [DecidableEq κ] (d : List (κ × α)) (k k' : κ) (v : α)
    (h : k' ≠ k) : alGet (alSet d k v) k' = alGet d k' := by
  have h' : ¬ k = k' := fun hh => h hh.symm
  induction d with
  | nil => simp [alGet, alSet, h']
  | cons p rest ih =>
      obtain ⟨k0, v0⟩ := p
      by_cases h0 : k0 = k
      · subst h0
        simp [alGet, alSet, h']
      · simp [alGet, alSet, h0, ih]

theorem alGet_eq_none_iff {κ α : Type} [DecidableEq κ] (d : List (κ × α)) (k : κ) :
    alGet d k = none ↔ k ∉ alKeys d := by
  induction d with
  | nil => simp [alGet, alKeys]
  | cons p rest ih =>
      obtain ⟨k0, v0⟩ := p
      by_cases h0 : k0 = k
      · subst h0
        simp [alGet, alKeys]
      · have h0' : ¬ k = k0 := fun hh => h0 hh.symm
        simp [alGet, alKeys, h0, h0', ih]

theorem alKeys_alSet {κ α : Type} [DecidableEq κ] (d : List (κ × α)) (k : κ) (v : α) :
    alKeys (alSet d k v) = if k ∈ alKeys d then alKeys d else alKeys d ++ [k] := by
  induction d with
  | nil => simp [alSet, alKeys]
  | cons p rest ih =>
      obtain ⟨k0, v0⟩ := p
      by_cases h0 : k0 = k
      · subst h0
        simp [alSet, alKeys]
      · have h0' : ¬ k = k0 := fun hh => h0 hh.symm
        simp only [alSet, if_neg h0, alKeys_cons, ih, List.mem_cons]
        by_cases hk : k ∈ alKeys rest
        · simp [hk]
        · simp [hk, h0']

theorem deep_merge_cons (base : List (String × JVal)) (k0 : String) (v0 : JVal)
    (rest : List (String × JVal)) :
    deep_merge base ((k0, v0) :: rest) = deep_merge (dmStep base k0 v0) rest := by
  cases v0 <;> simp only [deep_merge, dmStep] <;> (try split) <;> rfl

theorem alGet_dmStep_ne (base : List (String × JVal)) (k0 : String) (v0 : JVal) (k : String)
    (h : k ≠ k0) : alGet (dmStep base k0 v0) k = alGet base k := by
  cases v0 <;> simp only [dmStep] <;> (try split) <;> simp [alGet_alSet_ne _ _ _ _ h]

/-! ## Claim theorems: C1, C10, C9 -/
/-- C1: Issue identity is a pure function of (rule_id, column, row, original
value): two issues created with the same rule_id, column, row and original
value get identical ids regardless of severity, message, suggestion or
extra (status is always OPEN at creation and never enters the id), and the
id is exactly `Issue.make_id rule_id col row original`. -/
theorem issue_id_pure (rule_id : String) (row : Nat) (col : String) (original : Value)
    (sev sev' : Severity) (msg msg' : String) (sugg sugg' : Option Value)
    (extra extra' : List (String × Value)) :
    (Issue.create rule_id sev row col original msg sugg extra).id
      = (Issue.create rule_id sev' row col original msg' sugg' extra').id
    ∧ (Issue.create rule_id sev row col original msg sugg extra).id
      = Issue.make_id rule_id col row original :=
  ⟨by simp only [Issue.create], by simp only [Issue.create]⟩

/-- C10: `make_id` passes the original value through `str()` before
hashing, so any two original values with equal string representations
(e.g. the int 5 and the string "5") collide to the same issue id. -/
theorem make_id_str_collision (rule_id col : String) (row : Nat) (a b : Value)
    (h : pyStr a = pyStr b) :
    Issue.make_id rule_id col row a = Issue.make_id rule_id col row b := by
  unfold Issue.make_id makeIdPayload
  rw [h]

/-- Witness for C10 at the int 5 versus the string "5". -/
theorem make_id_str_collision_witness :
    pyStr (Value.vInt 5) = pyStr (Value.vStr "5")
    ∧ Issue.make_id "generic.required" "Code" 2 (Value.vInt 5)
        = Issue.make_id "generic.required" "Code" 2 (Value.vStr "5") :=
  ⟨rfl, make_id_str_collision "generic.required" "Code" 2 _ _ rfl⟩

/-- C9: key-level law of `deep_merge`: a key absent from the overlay keeps
the base's value; a key whose base and overlay values are both dicts gets
the recursive merge; any other key present in the overlay gets the
overlay's value wholesale (in particular an overlay list replaces a base
list, never a concatenation).  Overlay keys are distinct, as they are for
every Python dict. -/
theorem deep_merge_law (base overlay : List (String × JVal))
    (hov : (alKeys overlay).Nodup) (k : String) :
    (alGet overlay k = none → alGet (deep_merge base overlay) k = alGet base k) ∧
    (∀ b o, alGet base k = some (JVal.dict b) → alGet overlay k = some (JVal.dict o) →
        alGet (deep_merge base overlay) k = some (JVal.dict (deep_merge b o))) ∧
    (∀ v, alGet overlay k = some v →
        (∀ b, alGet base k = some (JVal.dict b) → ∀ o, v ≠ JVal.dict o) →
        alGet (deep_merge base overlay) k = some v) := by
  induction overlay generalizing base k with
  | nil =>
      refine ⟨fun _ => by simp [deep_merge], ?_, ?_⟩
      · intro b o _ ho
        simp [alGet] at ho
      · intro v hv _
        simp [alGet] at hv
  | cons p rest ih =>
      obtain ⟨k0, v0⟩ := p
      rw [alKeys_cons, List.nodup_cons] at hov
      obtain ⟨hk0, hrest⟩ := hov
      rw [deep_merge_cons]
      by_cases hk : k = k0
      · subst hk
        have hrest_none : alGet rest k = none := (alGet_eq_none_iff rest k).mpr hk0
        have h1 := (ih (dmStep base k v0) hrest k).1 hrest_none
        refine ⟨?_, ?_, ?_⟩
        · intro habs
          simp [alGet] at habs
        · intro b o hb ho
          have hv0 : v0 = JVal.dict o := by simpa [alGet] using ho
          subst hv0
          rw [h1]
          simp [dmStep, hb, alGet_alSet_self]
        · intro v hv hnd
          have hv0 : v0 = v := by simpa [alGet] using hv
          subst hv0
          rw [h1]
          cases v0 with
          | dict o =>
              cases hb : alGet base k with
              | none => simp [dmStep, hb, alGet_alSet_self]
              | some w =>
                  cases w with
                  | dict b => exact absurd rfl (hnd b hb o)
                  | null => simp [dmStep, hb, alGet_alSet_self]
                  | bool _ => simp [dmStep, hb, alGet_alSet_self]
                  | int _ => simp [dmStep, hb, alGet_alSet_self]
                  | str _ => simp [dmStep, hb, alGet_alSet_self]
                  | list _ => simp [dmStep, hb, alGet_alSet_self]
          | null => simp [dmStep, alGet_alSet_self]
          | bool _ => simp [dmStep, alGet_alSet_self]
          | int _ => simp [dmStep, alGet_alSet_self]
          | str _ => simp [dmStep, alGet_alSet_self]
          | list _ => simp [dmStep, alGet_alSet_self]
      · have hk' : ¬ k0 = k := fun hh => hk hh.symm
        have e1 : alGet ((k0, v0) :: rest) k = alGet rest k := by simp [alGet, hk']
        have e2 : alGet (dmStep base k0 v0) k = alGet base k := alGet_dmStep_ne base k0 v0 k hk
        obtain ⟨ih1, ih2, ih3⟩ := ih (dmStep base k0 v0) hrest k
        refine ⟨?_, ?_, ?_⟩
        · intro h
          rw [e1] at h
          rw [ih1 h, e2]
        · intro b o hb ho
          rw [e1] at ho
          exact ih2 b o (e2.trans hb) ho
        · intro v hv hnd
          rw [e1] at hv
          refine ih3 v hv ?_
          intro b hb
          exact hnd b (e2 ▸ hb)

/-- Witness for C9: a 2-item overlay list fully replaces a 5-item base
list, and the nested dict merges key-by-key. -/
theorem deep_merge_law_witness :
    (alKeys [("m", JVal.dict [("y", JVal.int 9)]),
             ("l", JVal.list [JVal.int 7, JVal.int 8])]).Nodup
    ∧ alGet (deep_merge
        [("a", JVal.int 1),
         ("m", JVal.dict [("x", JVal.int 1), ("y", JVal.int 2)]),
         ("l", JVal.list [JVal.int 1, JVal.int 2, JVal.int 3, JVal.int 4, JVal.int 5])]
        [("m", JVal.dict [("y", JVal.int 9)]),
         ("l", JVal.list [JVal.int 7, JVal.int 8])]) "l"
      = some (JVal.list [JVal.int 7, JVal.int 8]) := by
  refine ⟨by decide, ?_⟩
  exact (deep_merge_law _ _ (by decide) "l").2.2
    (JVal.list [JVal.int 7, JVal.int 8]) rfl (fun _ _ _ h => JVal.noConfusion h)

/-! ### More association-list lemmas -/
theorem key_mem_alKeys {κ α : Type} {d : List (κ × α)} (q : κ × α) (h : q ∈ d) :
    q.1 ∈ alKeys d := List.mem_map_of_mem Prod.fst h

theorem pair_key_mem_alKeys {κ α : Type} {d : List (κ × α)} {k : κ} {v : α}
    (h : (k, v) ∈ d) : k ∈ alKeys d := List.mem_map_of_mem Prod.fst h

theorem alSet_cons_eq {κ α : Type} [DecidableEq κ] (k0 : κ) (v0 : α)
    (rest : List (κ × α)) (v : α) : alSet ((k0, v0) :: rest) k0 v = (k0, v) :: rest := by
  simp [alSet]

theorem alSet_cons_ne {κ α : Type} [DecidableEq κ] {k0 k : κ} (h : ¬ k0 = k) (v0 : α)
    (rest : List (κ × α)) (v : α) :
    alSet ((k0, v0) :: rest) k v = (k0, v0) :: alSet rest k v := by
  simp [alSet, h]

theorem alErase_cons_eq {κ α : Type} [DecidableEq κ] (k0 : κ) (v0 : α)
    (rest : List (κ × α)) : alErase ((k0, v0) :: rest) k0 = rest := by
  simp [alErase]

theorem alErase_cons_ne {κ α : Type} [DecidableEq κ] {k0 k : κ} (h : ¬ k0 = k) (v0 : α)
    (rest : List (κ × α)) :
    alErase ((k0, v0) :: rest) k = (k0, v0) :: alErase rest k := by
  simp [alErase, h]

theorem alGet_mem {κ α : Type} [DecidableEq κ] {d : List (κ × α)} {k : κ} {v : α}
    (h : alGet d k = some v) : (k, v) ∈ d := by
  induction d with
  | nil => simp [alGet] at h
  | cons p rest ih =>
      obtain ⟨k0, v0⟩ := p
      simp only [alGet] at h
      by_cases h0 : k0 = k
      · rw [if_pos h0] at h
        injection h with hv
        subst hv
        subst h0
        exact List.mem_cons_self _ _
      · rw [if_neg h0] at h
        exact List.mem_cons_of_mem _ (ih h)

theorem mem_alGet {κ α : Type} [DecidableEq κ] {d : List (κ × α)} (hnd : (alKeys d).Nodup)
    {k : κ} {v : α} (h : (k, v) ∈ d) : alGet d k = some v := by
  induction d with
  | nil => simp at h
  | cons p rest ih =>
      obtain ⟨k0, v0⟩ := p
      rw [alKeys_cons, List.nodup_cons] at hnd
      rcases List.mem_cons.mp h with h1 | h1
      · cases h1
        simp [alGet]
      · have hk : ¬ k0 = k := by
          intro he
          subst he
          exact hnd.1 (pair_key_mem_alKeys h1)
        simp [alGet, hk, ih hnd.2 h1]

theorem alSet_fresh {κ α : Type} [DecidableEq κ] {d : List (κ × α)} {k : κ} (v : α)
    (h : alGet d k = none) : alSet d k v = d ++ [(k, v)] := by
  induction d with
  | nil => simp [alSet]
  | cons p rest ih =>
      obtain ⟨k0, v0⟩ := p
      simp only [alGet] at h
      by_cases h0 : k0 = k
      · rw [if_pos h0] at h
        exact absurd h (by simp)
      · rw [if_neg h0] at h
        simp only [alSet, if_neg h0, List.cons_append]
        rw [ih h]

theorem mem_alSet_iff {κ α : Type} [DecidableEq κ] {d : List (κ × α)} (hnd : (alKeys d).Nodup)
    (k : κ) (v : α) (q : κ × α) :
    q ∈ alSet d k v ↔ (q.1 ≠ k ∧ q ∈ d) ∨ q = (k, v) := by
  induction d with
  | nil => simp [alSet]
  | cons p rest ih =>
      obtain ⟨k0, v0⟩ := p
      rw [alKeys_cons, List.nodup_cons] at hnd
      by_cases h0 : k0 = k
      · subst h0
        rw [alSet_cons_eq]
        simp only [List.mem_cons]
        constructor
        · intro hq
          rcases hq with h1 | h1
          · exact Or.inr h1
          · refine Or.inl ⟨?_, Or.inr h1⟩
            intro he
            have hmem := key_mem_alKeys q h1
            rw [he] at hmem
            exact hnd.1 hmem
        · rintro (⟨hne, h1 | hq⟩ | rfl)
          · exact absurd (congrArg Prod.fst h1) hne
          · exact Or.inr hq
          · exact Or.inl rfl
      · rw [alSet_cons_ne h0]
        simp only [List.mem_cons, ih hnd.2]
        constructor
        · rintro (rfl | ⟨hne, hq⟩ | rfl)
          · exact Or.inl ⟨by simpa using h0, Or.inl rfl⟩
          · exact Or.inl ⟨hne, Or.inr hq⟩
          · exact Or.inr rfl
        · rintro (⟨hne, rfl | hq⟩ | rfl)
          · exact Or.inl rfl
          · exact Or.inr (Or.inl ⟨hne, hq⟩)
          · exact Or.inr (Or.inr rfl)

theorem alKeys_nodup_alSet {κ α : Type} [DecidableEq κ] {d : List (κ × α)}
    (hnd : (alKeys d).Nodup) (k : κ) (v : α) : (alKeys (alSet d k v)).Nodup := by
  rw [alKeys_alSet]
  by_cases hk : k ∈ alKeys d
  · simpa [hk] using hnd
  · rw [if_neg hk]
    refine List.Nodup.append hnd (List.nodup_singleton k) ?_
    intro x hx hx'
    simp only [List.mem_singleton] at hx'
    subst hx'
    exact hk hx

theorem alGet_alErase_ne {κ α : Type} [DecidableEq κ] (d : List (κ × α)) (k k' : κ)
    (h : k' ≠ k) : alGet (alErase d k) k' = alGet d k' := by
  induction d with
  | nil => simp [alErase]
  | cons p rest ih =>
      obtain ⟨k0, v0⟩ := p
      by_cases h0 : k0 = k
      · subst h0
        have h' : ¬ k0 = k' := fun hh => h (hh.symm)
        simp [alErase, alGet, h']
      · simp [alErase, alGet, h0, ih]

theorem alGet_alErase_self {κ α : Type} [DecidableEq κ] (d : List (κ × α))
    (hnd : (alKeys d).Nodup) (k : κ) : alGet (alErase d k) k = none := by
  induction d with
  | nil => simp [alErase, alGet]
  | cons p rest ih =>
      obtain ⟨k0, v0⟩ := p
      rw [alKeys_cons, List.nodup_cons] at hnd
      by_cases h0 : k0 = k
      · subst h0
        simp only [alErase, if_pos rfl]
        exact (alGet_eq_none_iff rest k0).mpr hnd.1
      · simp [alErase, alGet, h0, ih hnd.2]

theorem alKeys_alErase_sublist {κ α : Type} [DecidableEq κ] (d : List (κ × α)) (k : κ) :
    (alKeys (alErase d k)).Sublist (alKeys d) := by
  induction d with
  | nil => simp [alErase]
  | cons p rest ih =>
      obtain ⟨k0, v0⟩ := p
      by_cases h0 : k0 = k
      · simp only [alErase, if_pos h0, alKeys_cons]
        exact List.sublist_cons_self _ _
      · simp only [alErase, if_neg h0, alKeys_cons]
        exact ih.cons₂ _

theorem alKeys_nodup_alErase {κ α : Type} [DecidableEq κ] {d : List (κ × α)}
    (hnd : (alKeys d).Nodup) (k : κ) : (alKeys (alErase d k)).Nodup :=
  hnd.sublist (alKeys_alErase_sublist d k)

theorem mem_alErase_iff {κ α : Type} [DecidableEq κ] {d : List (κ × α)}
    (hnd : (alKeys d).Nodup) (k : κ) (q : κ × α) :
    q ∈ alErase d k ↔ q ∈ d ∧ q.1 ≠ k := by
  induction d with
  | nil => simp [alErase]
  | cons p rest ih =>
      obtain ⟨k0, v0⟩ := p
      rw [alKeys_cons, List.nodup_cons] at hnd
      by_cases h0 : k0 = k
      · subst h0
        rw [alErase_cons_eq]
        simp only [List.mem_cons]
        constructor
        · intro hq
          refine ⟨Or.inr hq, ?_⟩
          intro he
          have hmem := key_mem_alKeys q hq
          rw [he] at hmem
          exact hnd.1 hmem
        · rintro ⟨h1 | hq, hne⟩
          · exact absurd (congrArg Prod.fst h1) hne
          · exact hq
      · rw [alErase_cons_ne h0]
        simp only [List.mem_cons, ih hnd.2]
        constructor
        · rintro (rfl | ⟨hq, hne⟩)
          · exact ⟨Or.inl rfl, by simpa using h0⟩
          · exact ⟨Or.inr hq, hne⟩
        · rintro ⟨rfl | hq, hne⟩
          · exact Or.inl rfl
          · exact Or.inr ⟨hq, hne⟩

theorem alGetD_alSet_self {κ α : Type} [DecidableEq κ] (d : List (κ × α)) (k : κ)
    (v dflt : α) : alGetD (alSet d k v) k dflt = v := by
  simp [alGetD, alGet_alSet_self]

theorem alGetD_alSet_ne {κ α : Type} [DecidableEq κ] (d : List (κ × α)) (k k' : κ)
    (v dflt : α) (h : k' ≠ k) : alGetD (alSet d k v) k' dflt = alGetD d k' dflt := by
  simp [alGetD, alGet_alSet_ne _ _ _ _ h]

theorem alGet_alSet {κ α : Type} [DecidableEq κ] (d : List (κ × α)) (k : κ) (v : α)
    (k' : κ) : alGet (alSet d k v) k' = if k' = k then some v else alGet d k' := by
  by_cases h : k' = k
  · subst h
    simp [alGet_alSet_self]
  · simp [h, alGet_alSet_ne _ _ _ _ h]

/-! ### Wellformedness is preserved by `_insert` of a fresh id -/
theorem fresh_not_in_col_bucket {s : IssueStore} (hwf : s.Wf) {id : String}
    (hfresh : alGet s.by_id id = none) {q : String × List String} (hq : q ∈ s.by_col) :
    id ∉ q.2 := by
  intro hmem
  obtain ⟨p, hp, hpid, _⟩ := hwf.2.2.2.2.2.2.1 q hq id hmem
  have hg : alGet s.by_id p.1 = some p.2 := mem_alGet hwf.1 (by simpa using hp)
  rw [hpid, hfresh] at hg
  exact Option.noConfusion hg

theorem fresh_not_in_cell_bucket {s : IssueStore} (hwf : s.Wf) {id : String}
    (hfresh : alGet s.by_id id = none) {q : (Nat × String) × List String}
    (hq : q ∈ s.by_cell) : id ∉ q.2 := by
  intro hmem
  obtain ⟨p, hp, hpid, _⟩ := hwf.2.2.2.2.2.2.2 q hq id hmem
  have hg : alGet s.by_id p.1 = some p.2 := mem_alGet hwf.1 (by simpa using hp)
  rw [hpid, hfresh] at hg
  exact Option.noConfusion hg

theorem insertIssue_wf (s : IssueStore) (i : Issue) (hwf : s.Wf)
    (hfresh : alGet s.by_id i.id = none) : (s.insertIssue i).Wf := by
  obtain ⟨h1, h2, h3, h4, h5, h6, h7, h8⟩ := hwf
  have hwf' : s.Wf := ⟨h1, h2, h3, h4, h5, h6, h7, h8⟩
  have hkeys : i.id ∉ alKeys s.by_id := (alGet_eq_none_iff _ _).mp hfresh
  have hbid : (s.insertIssue i).by_id = s.by_id ++ [(i.id, i)] := alSet_fresh i hfresh
  have hBnotin : i.id ∉ alGetD s.by_col i.col [] := by
    cases hB : alGet s.by_col i.col with
    | none => simp [alGetD, hB]
    | some b =>
        simp only [alGetD, hB, Option.getD_some]
        exact fresh_not_in_col_bucket hwf' hfresh (alGet_mem hB)
  have hCnotin : i.id ∉ alGetD s.by_cell (i.row, i.col) [] := by
    cases hC : alGet s.by_cell (i.row, i.col) with
    | none => simp [alGetD, hC]
    | some c =>
        simp only [alGetD, hC, Option.getD_some]
        exact fresh_not_in_cell_bucket hwf' hfresh (alGet_mem hC)
  refine ⟨?_, ?_, ?_, ?_, ?_, ?_, ?_, ?_⟩
  · rw [hbid]
    simp only [alKeys, List.map_append, List.map_cons, List.map_nil]
    refine List.Nodup.append h1 (List.nodup_singleton _) ?_
    intro x hx hx'
    simp only [List.mem_singleton] at hx'
    subst hx'
    exact hkeys hx
  · exact alKeys_nodup_alSet h2 _ _
  · exact alKeys_nodup_alSet h3 _ _
  · intro p hp
    rw [hbid] at hp
    rcases List.mem_append.mp hp with hp | hp
    · exact h4 p hp
    · simp only [List.mem_singleton] at hp
      subst hp
      rfl
  · intro p hp
    rw [hbid] at hp
    rcases List.mem_append.mp hp with hp | hp
    · have hcnt := h5 p hp
      have hpne : p.1 ≠ i.id := by
        intro he
        exact hkeys (he ▸ key_mem_alKeys p hp)
      by_cases hcol : p.2.col = i.col
      · rw [show (s.insertIssue i).by_col
              = alSet s.by_col i.col (alGetD s.by_col i.col [] ++ [i.id]) from rfl,
            hcol, alGetD_alSet_self, List.count_append]
        rw [hcol] at hcnt
        simpa [hpne] using hcnt
      · rw [show (s.insertIssue i).by_col
              = alSet s.by_col i.col (alGetD s.by_col i.col [] ++ [i.id]) from rfl,
            alGetD_alSet_ne _ _ _ _ _ hcol]
        exact hcnt
    · simp only [List.mem_singleton] at hp
      subst hp
      rw [show (s.insertIssue i).by_col
            = alSet s.by_col i.col (alGetD s.by_col i.col [] ++ [i.id]) from rfl,
          alGetD_alSet_self, List.count_append]
      simp [List.count_eq_zero.mpr hBnotin]
  · intro p hp
    rw [hbid] at hp
    rcases List.mem_append.mp hp with hp | hp
    · have hcnt := h6 p hp
      have hpne : p.1 ≠ i.id := by
        intro he
        exact hkeys (he ▸ key_mem_alKeys p hp)
      by_cases hkey : (p.2.row, p.2.col) = (i.row, i.col)
      · rw [show (s.insertIssue i).by_cell
              = alSet s.by_cell (i.row, i.col) (alGetD s.by_cell (i.row, i.col) [] ++ [i.id])
              from rfl,
            hkey, alGetD_alSet_self, List.count_append]
        rw [hkey] at hcnt
        simpa [hpne] using hcnt
      · rw [show (s.insertIssue i).by_cell
              = alSet s.by_cell (i.row, i.col) (alGetD s.by_cell (i.row, i.col) [] ++ [i.id])
              from rfl,
            alGetD_alSet_ne _ _ _ _ _ hkey]
        exact hcnt
    · simp only [List.mem_singleton] at hp
      subst hp
      rw [show (s.insertIssue i).by_cell
            = alSet s.by_cell (i.row, i.col) (alGetD s.by_cell (i.row, i.col) [] ++ [i.id])
            from rfl,
          alGetD_alSet_self, List.count_append]
      simp [List.count_eq_zero.mpr hCnotin]
  · intro q hq id hid
    have hq' := (mem_alSet_iff h2 _ _ q).mp hq
    rcases hq' with ⟨hqne, hqmem⟩ | hqeq
    · obtain ⟨p, hp, hpid, hpcol⟩ := h7 q hqmem id hid
      exact ⟨p, by rw [hbid]; exact List.mem_append.mpr (Or.inl hp), hpid, hpcol⟩
    · subst hqeq
      rcases List.mem_append.mp hid with hid | hid
      · cases hB : alGet s.by_col i.col with
        | none => rw [alGetD, hB] at hid; simp at hid
        | some b =>
            rw [alGetD, hB, Option.getD_some] at hid
            obtain ⟨p, hp, hpid, hpcol⟩ := h7 (i.col, b) (alGet_mem hB) id hid
            exact ⟨p, by rw [hbid]; exact List.mem_append.mpr (Or.inl hp), hpid, hpcol⟩
      · simp only [List.mem_singleton] at hid
        subst hid
        refine ⟨(i.id, i), ?_, rfl, rfl⟩
        rw [hbid]
        exact List.mem_append.mpr (Or.inr (List.mem_singleton.mpr rfl))
  · intro q hq id hid
    have hq' := (mem_alSet_iff h3 _ _ q).mp hq
    rcases hq' with ⟨hqne, hqmem⟩ | hqeq
    · obtain ⟨p, hp, hpid, hprow, hpcol⟩ := h8 q hqmem id hid
      exact ⟨p, by rw [hbid]; exact List.mem_append.mpr (Or.inl hp), hpid, hprow, hpcol⟩
    · subst hqeq
      rcases List.mem_append.mp hid with hid | hid
      · cases hC : alGet s.by_cell (i.row, i.col) with
        | none => rw [alGetD, hC] at hid; simp at hid
        | some c =>
            rw [alGetD, hC, Option.getD_some] at hid
            obtain ⟨p, hp, hpid, hprow, hpcol⟩ := h8 ((i.row, i.col), c) (alGet_mem hC) id hid
            exact ⟨p, by rw [hbid]; exact List.mem_append.mpr (Or.inl hp), hpid, hprow, hpcol⟩
      · simp only [List.mem_singleton] at hid
        subst hid
        refine ⟨(i.id, i), ?_, rfl, rfl, rfl⟩
        rw [hbid]
        exact List.mem_append.mpr (Or.inr (List.mem_singleton.mpr rfl))

/-! ### Wellformedness is preserved by `set_status` -/
theorem set_status_wf (s : IssueStore) (id : String) (st : IssueStatus) (hwf : s.Wf) :
    (s.set_status id st).Wf := by
  cases hg : alGet s.by_id id with
  | none => simpa [IssueStore.set_status, hg] using hwf
  | some issue =>
      obtain ⟨h1, h2, h3, h4, h5, h6, h7, h8⟩ := hwf
      have hmem : (id, issue) ∈ s.by_id := alGet_mem hg
      have hsid : issue.id = id := h4 _ hmem
      have hby : (s.set_status id st).by_id = alSet s.by_id id { issue with status := st } := by
        simp [IssueStore.set_status, hg]
      have hcol : (s.set_status id st).by_col = s.by_col := by
        simp [IssueStore.set_status, hg]
      have hcell : (s.set_status id st).by_cell = s.by_cell := by
        simp [IssueStore.set_status, hg]
      have hmem' : ∀ p, p ∈ (s.set_status id st).by_id ↔
          (p.1 ≠ id ∧ p ∈ s.by_id) ∨ p = (id, { issue with status := st }) := by
        intro p
        rw [hby]
        exact mem_alSet_iff h1 _ _ p
      refine ⟨?_, ?_, ?_, ?_, ?_, ?_, ?_, ?_⟩
      · rw [hby]
        exact alKeys_nodup_alSet h1 _ _
      · rw [hcol]; exact h2
      · rw [hcell]; exact h3
      · intro p hp
        rcases (hmem' p).mp hp with ⟨_, hp⟩ | rfl
        · exact h4 p hp
        · exact hsid
      · intro p hp
        rw [hcol]
        rcases (hmem' p).mp hp with ⟨_, hp⟩ | rfl
        · exact h5 p hp
        · exact h5 (id, issue) hmem
      · intro p hp
        rw [hcell]
        rcases (hmem' p).mp hp with ⟨_, hp⟩ | rfl
        · exact h6 p hp
        · exact h6 (id, issue) hmem
      · intro q hq id' hid'
        rw [hcol] at hq
        obtain ⟨p, hp, hpid, hpcol⟩ := h7 q hq id' hid'
        by_cases hpi : p.1 = id
        · have hpv : p.2 = issue := by
            have h' := mem_alGet h1 (show (p.1, p.2) ∈ s.by_id from by simpa using hp)
            rw [hpi, hg] at h'
            injection h' with hh
            exact hh.symm
          refine ⟨(id, { issue with status := st }), (hmem' _).mpr (Or.inr rfl), ?_, ?_⟩
          · exact hpi ▸ hpid
          · exact hpv ▸ hpcol
        · exact ⟨p, (hmem' p).mpr (Or.inl ⟨hpi, hp⟩), hpid, hpcol⟩
      · intro q hq id' hid'
        rw [hcell] at hq
        obtain ⟨p, hp, hpid, hprow, hpcol⟩ := h8 q hq id' hid'
        by_cases hpi : p.1 = id
        · have hpv : p.2 = issue := by
            have h' := mem_alGet h1 (show (p.1, p.2) ∈ s.by_id from by simpa using hp)
            rw [hpi, hg] at h'
            injection h' with hh
            exact hh.symm
          refine ⟨(id, { issue with status := st }), (hmem' _).mpr (Or.inr rfl), ?_, ?_, ?_⟩
          · exact hpi ▸ hpid
          · exact hpv ▸ hprow
          · exact hpv ▸ hpcol
        · exact ⟨p, (hmem' p).mpr (Or.inl ⟨hpi, hp⟩), hpid, hprow, hpcol⟩

theorem removeIds_cons_none (bi : List (String × Issue)) (bc) (issue_id : String)
    (rest : List String) (hg : alGet bi issue_id = none) :
    removeIds bi bc (issue_id :: rest) = removeIds bi bc rest := by
  simp only [removeIds, hg]

theorem removeIds_cons_some (bi : List (String × Issue)) (bc) (issue_id : String)
    (rest : List String) (issue : Issue) (hg : alGet bi issue_id = some issue) :
    removeIds bi bc (issue_id :: rest)
      = removeIds (alErase bi issue_id)
          (removeCell bc (issue.row, issue.col) issue_id) rest := by
  simp only [removeIds, hg, removeCell]

theorem removeCell_facts (bc : List ((Nat × String) × List String)) (key : Nat × String)
    (issue_id : String) (hnd : (alKeys bc).Nodup) (cl : List String)
    (hget : alGet bc key = some cl) (hmem : issue_id ∈ cl) :
    (alKeys (removeCell bc key issue_id)).Nodup
    ∧ (∀ key', key' ≠ key → alGet (removeCell bc key issue_id) key' = alGet bc key')
    ∧ (alGet (removeCell bc key issue_id) key
        = if cl.erase issue_id = [] then none else some (cl.erase issue_id)) := by
  by_cases hcl : cl.erase issue_id = []
  · have hbc : removeCell bc key issue_id = alErase bc key := by
      simp [removeCell, hget, hmem, hcl]
    rw [hbc]
    exact ⟨alKeys_nodup_alErase hnd key,
      fun key' hk => alGet_alErase_ne bc key key' hk,
      by simp [hcl, alGet_alErase_self bc hnd key]⟩
  · have hbc : removeCell bc key issue_id = alSet bc key (cl.erase issue_id) := by
      simp [removeCell, hget, hmem, hcl]
    rw [hbc]
    exact ⟨alKeys_nodup_alSet hnd _ _,
      fun key' hk => alGet_alSet_ne bc key key' _ hk,
      by simp [hcl, alGet_alSet_self]⟩

theorem removeOne_wf (bi : List (String × Issue)) (bc) (issue_id : String) (issue : Issue)
    (h : IdCellWf bi bc) (hg : alGet bi issue_id = some issue) :
    IdCellWf (alErase bi issue_id) (removeCell bc (issue.row, issue.col) issue_id) := by
  obtain ⟨w1, w2, w3, w4, w5⟩ := h
  have hmem0 : (issue_id, issue) ∈ bi := alGet_mem hg
  have hcnt : (alGetD bc (issue.row, issue.col) []).count issue_id = 1 := w4 _ hmem0
  cases hb : alGet bc (issue.row, issue.col) with
  | none => rw [alGetD, hb] at hcnt; simp at hcnt
  | some cl =>
      rw [alGetD, hb, Option.getD_some] at hcnt
      have hclmem : issue_id ∈ cl := by
        have : 0 < cl.count issue_id := by omega
        exact List.count_pos_iff_mem.mp this
      obtain ⟨hn1, hn2, hn3⟩ := removeCell_facts bc (issue.row, issue.col) issue_id w2 cl hb hclmem
      have hnotin : issue_id ∉ cl.erase issue_id := by
        rw [← List.count_eq_zero, List.count_erase_self, hcnt]
      refine ⟨alKeys_nodup_alErase w1 issue_id, hn1, ?_, ?_, ?_⟩
      · intro p hp
        exact w3 p ((mem_alErase_iff w1 issue_id p).mp hp).1
      · intro p hp
        obtain ⟨hpbi, hpne⟩ := (mem_alErase_iff w1 issue_id p).mp hp
        by_cases hkey : (p.2.row, p.2.col) = (issue.row, issue.col)
        · have hclp : (alGetD bc (p.2.row, p.2.col) []).count p.1 = 1 := w4 p hpbi
          rw [hkey, alGetD, hb, Option.getD_some] at hclp
          have hcnt' : (cl.erase issue_id).count p.1 = 1 := by
            rw [List.count_erase_of_ne hpne]
            exact hclp
          have hne' : cl.erase issue_id ≠ [] := by
            intro he
            rw [he] at hcnt'
            simp at hcnt'
          rw [alGetD, hkey, hn3, if_neg hne', Option.getD_some]
          exact hcnt'
        · rw [alGetD, hn2 _ hkey, ← alGetD]
          exact w4 p hpbi
      · intro q hq id hid
        have hqchar : (q.1 ≠ (issue.row, issue.col) ∧ q ∈ bc)
            ∨ (q.1 = (issue.row, issue.col) ∧ q.2 = cl.erase issue_id) := by
          by_cases hcl : cl.erase issue_id = []
          · have hbc : removeCell bc (issue.row, issue.col) issue_id
                = alErase bc (issue.row, issue.col) := by
              simp [removeCell, hb, hclmem, hcl]
            rw [hbc] at hq
            obtain ⟨hqbc, hqne⟩ := (mem_alErase_iff w2 _ q).mp hq
            exact Or.inl ⟨hqne, hqbc⟩
          · have hbc : removeCell bc (issue.row, issue.col) issue_id
                = alSet bc (issue.row, issue.col) (cl.erase issue_id) := by
              simp [removeCell, hb, hclmem, hcl]
            rw [hbc] at hq
            rcases (mem_alSet_iff w2 _ _ q).mp hq with ⟨hqne, hqbc⟩ | hqeq
            · exact Or.inl ⟨hqne, hqbc⟩
            · exact Or.inr ⟨congrArg Prod.fst hqeq, congrArg Prod.snd hqeq⟩
        rcases hqchar with ⟨hqne, hqbc⟩ | ⟨hqkey, hqval⟩
        · obtain ⟨p, hp, hpid, hprow, hpcol⟩ := w5 q hqbc id hid
          have hpne : p.1 ≠ issue_id := by
            intro he
            have h' := mem_alGet w1 (show (p.1, p.2) ∈ bi from by simpa using hp)
            rw [he, hg] at h'
            injection h' with hh
            apply hqne
            rw [hh, hprow, hpcol]
          exact ⟨p, (mem_alErase_iff w1 issue_id p).mpr ⟨hp, hpne⟩, hpid, hprow, hpcol⟩
        · have hid' : id ∈ cl.erase issue_id := by rw [← hqval]; exact hid
          have hidcl : id ∈ cl := List.mem_of_mem_erase hid'
          have hidne : id ≠ issue_id := fun he => hnotin (he ▸ hid')
          obtain ⟨p, hp, hpid, hprow, hpcol⟩ := w5 ((issue.row, issue.col), cl) (alGet_mem hb) id hidcl
          have hpne : p.1 ≠ issue_id := hpid ▸ hidne
          refine ⟨p, (mem_alErase_iff w1 issue_id p).mpr ⟨hp, hpne⟩, hpid, ?_, ?_⟩
          · rw [hqkey]; exact hprow
          · rw [hqkey]; exact hpcol

theorem removeCell_frame (bc : List ((Nat × String) × List String)) (key : Nat × String)
    (issue_id : String) (key' : Nat × String) (h : key' ≠ key) :
    alGet (removeCell bc key issue_id) key' = alGet bc key' := by
  cases hb : alGet bc key with
  | none => simp [removeCell, hb]
  | some cl =>
      by_cases hm : issue_id ∈ cl
      · by_cases he : cl.erase issue_id = []
        · simp [removeCell, hb, hm, he, alGet_alErase_ne _ _ _ h]
        · simp [removeCell, hb, hm, he, alGet_alSet_ne _ _ _ _ h]
      · simp [removeCell, hb, hm]

theorem removeIds_spec (ids : List String) (bi : List (String × Issue)) (bc)
    (h : IdCellWf bi bc) :
    IdCellWf (removeIds bi bc ids).1 (removeIds bi bc ids).2
    ∧ (∀ k, k ∉ ids → alGet (removeIds bi bc ids).1 k = alGet bi k)
    ∧ (∀ k, k ∈ ids → alGet (removeIds bi bc ids).1 k = none)
    ∧ (∀ key : Nat × String,
        (∀ id ∈ ids, ∀ issue, alGet bi id = some issue → (issue.row, issue.col) ≠ key) →
        alGet (removeIds bi bc ids).2 key = alGet bc key) := by
  induction ids generalizing bi bc with
  | nil =>
      exact ⟨h, fun k _ => rfl, fun k hk => absurd hk (List.not_mem_nil k), fun key _ => rfl⟩
  | cons id rest ih =>
      cases hg : alGet bi id with
      | none =>
          rw [removeIds_cons_none bi bc id rest hg]
          obtain ⟨i1, i2, i3, i4⟩ := ih bi bc h
          refine ⟨i1, ?_, ?_, ?_⟩
          · intro k hk
            exact i2 k (fun hm => hk (List.mem_cons_of_mem _ hm))
          · intro k hk
            rcases List.mem_cons.mp hk with rfl | hk'
            · by_cases hrest : k ∈ rest
              · exact i3 k hrest
              · rw [i2 k hrest]; exact hg
            · exact i3 k hk'
          · intro key hkey
            exact i4 key (fun id' hm issue h' => hkey id' (List.mem_cons_of_mem _ hm) issue h')
      | some issue =>
          rw [removeIds_cons_some bi bc id rest issue hg]
          have hstep := removeOne_wf bi bc id issue h hg
          obtain ⟨i1, i2, i3, i4⟩ := ih _ _ hstep
          have hbi_ne : ∀ k, k ≠ id → alGet (alErase bi id) k = alGet bi k :=
            fun k hk => alGet_alErase_ne bi id k hk
          have hbi_self : alGet (alErase bi id) id = none := alGet_alErase_self bi h.1 id
          refine ⟨i1, ?_, ?_, ?_⟩
          · intro k hk
            have hkne : k ≠ id := fun he => hk (he ▸ List.mem_cons_self id rest)
            have hkrest : k ∉ rest := fun hm => hk (List.mem_cons_of_mem _ hm)
            rw [i2 k hkrest, hbi_ne k hkne]
          · intro k hk
            rcases List.mem_cons.mp hk with rfl | hk'
            · by_cases hrest : k ∈ rest
              · exact i3 k hrest
              · rw [i2 k hrest]; exact hbi_self
            · exact i3 k hk'
          · intro key hkey
            have hkeyne : (issue.row, issue.col) ≠ key :=
              hkey id (List.mem_cons_self _ _) issue hg
            have hinner : ∀ id' ∈ rest, ∀ issue',
                alGet (alErase bi id) id' = some issue' → (issue'.row, issue'.col) ≠ key := by
              intro id' hm issue' h'
              by_cases hi : id' = id
              · rw [hi, hbi_self] at h'
                exact Option.noConfusion h'
              · rw [hbi_ne id' hi] at h'
                exact hkey id' (List.mem_cons_of_mem _ hm) issue' h'
            rw [i4 key hinner, removeCell_frame bc _ id key (fun he => hkeyne he.symm)]

theorem wf_idcell (s : IssueStore) (hwf : s.Wf) : IdCellWf s.by_id s.by_cell :=
  ⟨hwf.1, hwf.2.2.1, hwf.2.2.2.1, hwf.2.2.2.2.2.1, hwf.2.2.2.2.2.2.2⟩

theorem removeColumn_wf (s : IssueStore) (col : String) (hwf : s.Wf) :
    (s.removeColumn col).Wf
    ∧ (∀ id issue, alGet (s.removeColumn col).by_id id = some issue →
        alGet s.by_id id = some issue ∧ issue.col ≠ col)
    ∧ (∀ id issue, alGet s.by_id id = some issue → issue.col ≠ col →
        alGet (s.removeColumn col).by_id id = some issue)
    ∧ (∀ c, c ≠ col → alGet (s.removeColumn col).by_col c = alGet s.by_col c)
    ∧ (∀ key : Nat × String, key.2 ≠ col →
        alGet (s.removeColumn col).by_cell key = alGet s.by_cell key) := by
  obtain ⟨h1, h2, h3, h4, h5, h6, h7, h8⟩ := hwf
  have hwf' : s.Wf := ⟨h1, h2, h3, h4, h5, h6, h7, h8⟩
  have hFa : ∀ id ∈ alGetD s.by_col col [], ∃ issue,
      alGet s.by_id id = some issue ∧ issue.col = col := by
    intro id hid
    cases hB : alGet s.by_col col with
    | none => rw [alGetD, hB] at hid; simp at hid
    | some b =>
        rw [alGetD, hB, Option.getD_some] at hid
        obtain ⟨p, hp, hpid, hpcol⟩ := h7 (col, b) (alGet_mem hB) id hid
        have hg := mem_alGet h1 (show (p.1, p.2) ∈ s.by_id from by simpa using hp)
        rw [hpid] at hg
        exact ⟨p.2, hg, hpcol⟩
  have hFb : ∀ id issue, alGet s.by_id id = some issue → issue.col = col →
      id ∈ alGetD s.by_col col [] := by
    intro id issue hg hcol
    have hc := h5 (id, issue) (alGet_mem hg)
    simp only at hc
    rw [hcol] at hc
    have : 0 < (alGetD s.by_col col []).count id := by omega
    exact List.count_pos_iff.mp this
  obtain ⟨sWf, s2, s3, s4⟩ :=
    removeIds_spec (alGetD s.by_col col []) s.by_id s.by_cell (wf_idcell s hwf')
  obtain ⟨c1, c2, c3, c4, c5⟩ := sWf
  have hsurv : ∀ id issue, alGet (s.removeColumn col).by_id id = some issue →
      alGet s.by_id id = some issue ∧ issue.col ≠ col := by
    intro id issue hg
    by_cases hid : id ∈ alGetD s.by_col col []
    · rw [show alGet (s.removeColumn col).by_id id
          = alGet (removeIds s.by_id s.by_cell (alGetD s.by_col col [])).1 id from rfl,
        s3 id hid] at hg
      exact Option.noConfusion hg
    · rw [show alGet (s.removeColumn col).by_id id
          = alGet (removeIds s.by_id s.by_cell (alGetD s.by_col col [])).1 id from rfl,
        s2 id hid] at hg
      refine ⟨hg, ?_⟩
      intro hcol
      exact hid (hFb id issue hg hcol)
  refine ⟨⟨c1, alKeys_nodup_alSet h2 _ _, c2, c3, ?_, c4, ?_, c5⟩, hsurv, ?_, ?_, ?_⟩
  · intro p hp
    have hg : alGet (s.removeColumn col).by_id p.1 = some p.2 :=
      mem_alGet c1 (show (p.1, p.2) ∈ (s.removeColumn col).by_id from by simpa using hp)
    obtain ⟨hgs, hcol⟩ := hsurv p.1 p.2 hg
    rw [show (s.removeColumn col).by_col = alSet s.by_col col [] from rfl,
      alGetD_alSet_ne _ _ _ _ _ hcol]
    exact h5 (p.1, p.2) (alGet_mem hgs)
  · intro q hq id hid
    rcases (mem_alSet_iff h2 _ _ q).mp hq with ⟨hqne, hqmem⟩ | hqeq
    · obtain ⟨p, hp, hpid, hpcol⟩ := h7 q hqmem id hid
      have hg := mem_alGet h1 (show (p.1, p.2) ∈ s.by_id from by simpa using hp)
      have hpcolne : p.2.col ≠ col := by
        intro he
        exact hqne (hpcol ▸ he)
      have hnotin : p.1 ∉ alGetD s.by_col col [] := by
        intro hin
        obtain ⟨issue₂, hg₂, hcol₂⟩ := hFa p.1 hin
        rw [hg] at hg₂
        injection hg₂ with hh
        exact hpcolne (hh ▸ hcol₂)
      have hg' : alGet (s.removeColumn col).by_id p.1 = some p.2 := by
        rw [show alGet (s.removeColumn col).by_id p.1
            = alGet (removeIds s.by_id s.by_cell (alGetD s.by_col col [])).1 p.1 from rfl,
          s2 p.1 hnotin]
        exact hg
      exact ⟨(p.1, p.2), alGet_mem hg', hpid, hpcol⟩
    · subst hqeq
      simp at hid
  · intro id issue hg hcol
    have hnotin : id ∉ alGetD s.by_col col [] := by
      intro hin
      obtain ⟨issue₂, hg₂, hcol₂⟩ := hFa id hin
      rw [hg] at hg₂
      injection hg₂ with hh
      exact hcol (hh ▸ hcol₂)
    rw [show alGet (s.removeColumn col).by_id id
        = alGet (removeIds s.by_id s.by_cell (alGetD s.by_col col [])).1 id from rfl,
      s2 id hnotin]
    exact hg
  · intro c hc
    exact alGet_alSet_ne s.by_col col c [] hc
  · intro key hkey
    refine s4 key ?_
    intro id hid issue hg
    obtain ⟨issue₂, hg₂, hcol₂⟩ := hFa id hid
    rw [hg] at hg₂
    injection hg₂ with hh
    intro he
    apply hkey
    rw [← he]
    rw [← hh] at hcol₂
    simpa using hcol₂

theorem removeColumns_fold_wf (cols : List String) (s : IssueStore) (hwf : s.Wf) :
    (cols.foldl IssueStore.removeColumn s).Wf
    ∧ (∀ id issue, alGet (cols.foldl IssueStore.removeColumn s).by_id id = some issue →
        alGet s.by_id id = some issue ∧ issue.col ∉ cols)
    ∧ (∀ id issue, alGet s.by_id id = some issue → issue.col ∉ cols →
        alGet (cols.foldl IssueStore.removeColumn s).by_id id = some issue)
    ∧ (∀ c, c ∉ cols → alGet (cols.foldl IssueStore.removeColumn s).by_col c = alGet s.by_col c)
    ∧ (∀ key : Nat × String, key.2 ∉ cols →
        alGet (cols.foldl IssueStore.removeColumn s).by_cell key = alGet s.by_cell key) := by
  induction cols generalizing s with
  | nil =>
      exact ⟨hwf, fun id issue hg => ⟨hg, by simp⟩, fun id issue hg _ => hg,
        fun c _ => rfl, fun key _ => rfl⟩
  | cons col rest ih =>
      obtain ⟨rWf, rA, rB, rC, rD⟩ := removeColumn_wf s col hwf
      obtain ⟨iWf, iA, iB, iC, iD⟩ := ih (s.removeColumn col) rWf
      simp only [List.foldl_cons]
      refine ⟨iWf, ?_, ?_, ?_, ?_⟩
      · intro id issue hg
        obtain ⟨hg', hcolrest⟩ := iA id issue hg
        obtain ⟨hgs, hcol⟩ := rA id issue hg'
        exact ⟨hgs, by simp [hcol, hcolrest]⟩
      · intro id issue hg hcol
        have hc1 : issue.col ≠ col := fun he => hcol (by simp [he])
        have hc2 : issue.col ∉ rest := fun hm => hcol (List.mem_cons_of_mem _ hm)
        exact iB id issue (rB id issue hg hc1) hc2
      · intro c hc
        rw [iC c (fun hm => hc (List.mem_cons_of_mem _ hm)),
            rC c (fun he => hc (by simp [he]))]
      · intro key hkey
        rw [iD key (fun hm => hkey (List.mem_cons_of_mem _ hm)),
            rD key (fun he => hkey (by simp [he]))]

theorem insertIssue_by_id_get (s : IssueStore) (i : Issue) (k : String) :
    alGet (s.insertIssue i).by_id k = if k = i.id then some i else alGet s.by_id k := by
  simp [IssueStore.insertIssue, alGet_alSet]

theorem insert_fold_wf (issues : List Issue) (t : IssueStore) (hwf : t.Wf)
    (hfresh : ∀ i ∈ issues, alGet t.by_id i.id = none)
    (hnd : (issues.map Issue.id).Nodup) :
    (issues.foldl IssueStore.insertIssue t).Wf
    ∧ (∀ id, (∀ i ∈ issues, i.id ≠ id) →
        alGet (issues.foldl IssueStore.insertIssue t).by_id id = alGet t.by_id id)
    ∧ (∀ c, (∀ i ∈ issues, i.col ≠ c) →
        alGet (issues.foldl IssueStore.insertIssue t).by_col c = alGet t.by_col c)
    ∧ (∀ key : Nat × String, (∀ i ∈ issues, (i.row, i.col) ≠ key) →
        alGet (issues.foldl IssueStore.insertIssue t).by_cell key = alGet t.by_cell key) := by
  induction issues generalizing t with
  | nil => exact ⟨hwf, fun _ _ => rfl, fun _ _ => rfl, fun _ _ => rfl⟩
  | cons i rest ih =>
      simp only [List.map_cons, List.nodup_cons] at hnd
      have hfresh0 : alGet t.by_id i.id = none := hfresh i (List.mem_cons_self _ _)
      have hWf' := insertIssue_wf t i hwf hfresh0
      have hfresh' : ∀ j ∈ rest, alGet (t.insertIssue i).by_id j.id = none := by
        intro j hj
        rw [insertIssue_by_id_get]
        have hne : j.id ≠ i.id := by
          intro he
          exact hnd.1 (he ▸ List.mem_map_of_mem Issue.id hj)
        rw [if_neg hne]
        exact hfresh j (List.mem_cons_of_mem _ hj)
      obtain ⟨iWf, iA, iB, iC⟩ := ih (t.insertIssue i) hWf' hfresh' hnd.2
      simp only [List.foldl_cons]
      refine ⟨iWf, ?_, ?_, ?_⟩
      · intro id hid
        rw [iA id (fun j hj => hid j (List.mem_cons_of_mem _ hj)), insertIssue_by_id_get,
            if_neg (fun he => hid i (List.mem_cons_self _ _) he.symm)]
      · intro c hc
        have hstep : alGet (t.insertIssue i).by_col c = alGet t.by_col c :=
          alGet_alSet_ne _ _ _ _ (fun he => hc i (List.mem_cons_self _ _) he.symm)
        rw [iB c (fun j hj => hc j (List.mem_cons_of_mem _ hj)), hstep]
      · intro key hkey
        have hstep : alGet (t.insertIssue i).by_cell key = alGet t.by_cell key :=
          alGet_alSet_ne _ _ _ _ (fun he => hkey i (List.mem_cons_self _ _) he.symm)
        rw [iC key (fun j hj => hkey j (List.mem_cons_of_mem _ hj)), hstep]

theorem replace_insert_fold (cols : List String) (issues : List Issue) (t : IssueStore) :
    issues.foldl
        (fun st issue =>
          if issue.col ∈ cols ∨ issue.col = wholeRowSentinel then st.insertIssue issue else st) t
      = (issues.filter (insertedFor cols)).foldl IssueStore.insertIssue t := by
  induction issues generalizing t with
  | nil => rfl
  | cons i rest ih =>
      by_cases hc : i.col ∈ cols ∨ i.col = wholeRowSentinel
      · simp only [List.foldl_cons, if_pos hc, List.filter_cons, insertedFor,
          decide_eq_true_eq, hc, if_true, List.foldl_cons]
        exact ih _
      · simp only [List.foldl_cons, if_neg hc, List.filter_cons, insertedFor,
          decide_eq_true_eq, hc, if_false]
        exact ih t

theorem replace_all_wf (issues : List Issue) (hnd : (issues.map Issue.id).Nodup) :
    (IssueStore.replace_all issues).Wf := by
  have hempty : IssueStore.empty.Wf := by
    refine ⟨?_, ?_, ?_, ?_, ?_, ?_, ?_, ?_⟩ <;> simp [IssueStore.empty, alKeys]
  exact (insert_fold_wf issues IssueStore.empty hempty (fun i _ => rfl) hnd).1

theorem replace_for_columns_facts (s : IssueStore) (cols : List String) (issues : List Issue)
    (hwf : s.Wf)
    (hnd : ((issues.filter (insertedFor cols)).map Issue.id).Nodup)
    (hfresh : ∀ i ∈ issues, insertedFor cols i = true →
        ∀ old, alGet s.by_id i.id = some old → old.col ∈ cols) :
    (s.replace_for_columns cols issues).Wf
    ∧ (∀ id issue, alGet s.by_id id = some issue → issue.col ∉ cols →
        (∀ i ∈ issues, insertedFor cols i = true → i.id ≠ id) →
        alGet (s.replace_for_columns cols issues).by_id id = some issue)
    ∧ (∀ c, c ∉ cols → c ≠ wholeRowSentinel →
        alGet (s.replace_for_columns cols issues).by_col c = alGet s.by_col c)
    ∧ (∀ key : Nat × String, key.2 ∉ cols → key.2 ≠ wholeRowSentinel →
        alGet (s.replace_for_columns cols issues).by_cell key = alGet s.by_cell key) := by
  obtain ⟨rWf, rA, rB, rC, rD⟩ := removeColumns_fold_wf cols s hwf
  have hfresh' : ∀ i ∈ issues.filter (insertedFor cols),
      alGet (cols.foldl IssueStore.removeColumn s).by_id i.id = none := by
    intro i hi
    obtain ⟨hmem, hcond⟩ := List.mem_filter.mp hi
    cases hg : alGet (cols.foldl IssueStore.removeColumn s).by_id i.id with
    | none => rfl
    | some old =>
        obtain ⟨hgs, hnotin⟩ := rA i.id old hg
        exact absurd (hfresh i hmem hcond old hgs) hnotin
  obtain ⟨fWf, fA, fB, fC⟩ :=
    insert_fold_wf (issues.filter (insertedFor cols))
      (cols.foldl IssueStore.removeColumn s) rWf hfresh' hnd
  have heq : s.replace_for_columns cols issues
      = (issues.filter (insertedFor cols)).foldl IssueStore.insertIssue
          (cols.foldl IssueStore.removeColumn s) :=
    replace_insert_fold cols issues _
  have hinscol : ∀ i ∈ issues.filter (insertedFor cols),
      i.col ∈ cols ∨ i.col = wholeRowSentinel := by
    intro i hi
    have hcond := (List.mem_filter.mp hi).2
    simpa [insertedFor] using hcond
  refine ⟨heq ▸ fWf, ?_, ?_, ?_⟩
  · intro id issue hg hcol hins
    rw [heq, fA id ?hids, rB id issue hg hcol]
    case hids =>
      intro i hi
      exact hins i (List.mem_filter.mp hi).1 (List.mem_filter.mp hi).2
  · intro c hc hrow
    rw [heq, fB c ?hcols, rC c hc]
    case hcols =>
      intro i hi he
      rcases hinscol i hi with hm | hm
      · exact hc (he ▸ hm)
      · exact hrow (he ▸ hm)
  · intro key hkey hrow
    rw [heq, fC key ?hkeys, rD key hkey]
    case hkeys =>
      intro i hi he
      rcases hinscol i hi with hm | hm
      · exact hkey (by rw [← he]; exact hm)
      · exact hrow (by rw [← he]; exact hm)

theorem empty_wf : IssueStore.empty.Wf := by
  refine ⟨?_, ?_, ?_, ?_, ?_, ?_, ?_, ?_⟩ <;> simp [IssueStore.empty, alKeys]

theorem applyOp_wf (s : IssueStore) (op : StoreOp) (hwf : s.Wf)
    (hok : op.okB s = true) : (applyOp s op).Wf := by
  cases op with
  | replaceAll issues =>
      simp only [StoreOp.okB, decide_eq_true_eq] at hok
      exact replace_all_wf issues hok
  | replaceForColumns cols issues =>
      simp only [StoreOp.okB, Bool.and_eq_true, decide_eq_true_eq, List.all_eq_true] at hok
      refine (replace_for_columns_facts s cols issues hwf hok.1 ?_).1
      intro i hi hins old hgs
      have h' := hok.2 i hi
      rw [hins] at h'
      simp only [Bool.not_true, Bool.false_or] at h'
      simp only [freshOk, hgs] at h'
      exact of_decide_eq_true h'
  | setStatus id st => exact set_status_wf s id st hwf

theorem applyOps_wf (ops : List StoreOp) (s : IssueStore) (hwf : s.Wf)
    (hok : OpsOk s ops = true) : (applyOps s ops).Wf := by
  induction ops generalizing s with
  | nil => exact hwf
  | cons op rest ih =>
      simp only [OpsOk, Bool.and_eq_true] at hok
      exact ih (applyOp s op) (applyOp_wf s op hwf hok.1) hok.2

theorem wf_exactlyOnce (s : IssueStore) (hwf : s.Wf) : s.ExactlyOnce := by
  obtain ⟨h1, h2, h3, h4, h5, h6, h7, h8⟩ := hwf
  intro id issue hg
  have hmem : (id, issue) ∈ s.by_id := alGet_mem hg
  refine ⟨h4 _ hmem, h5 _ hmem, ?_, h6 _ hmem, ?_⟩
  · intro c hc hin
    cases hB : alGet s.by_col c with
    | none => rw [alGetD, hB] at hin; simp at hin
    | some b =>
        rw [alGetD, hB, Option.getD_some] at hin
        obtain ⟨p, hp, hpid, hpcol⟩ := h7 (c, b) (alGet_mem hB) id hin
        have hgp := mem_alGet h1 (show (p.1, p.2) ∈ s.by_id from by simpa using hp)
        rw [hpid, hg] at hgp
        injection hgp with hh
        rw [← hh] at hpcol
        exact hc hpcol.symm
  · intro key hk hin
    cases hC : alGet s.by_cell key with
    | none => rw [alGetD, hC] at hin; simp at hin
    | some b =>
        rw [alGetD, hC, Option.getD_some] at hin
        obtain ⟨p, hp, hpid, hprow, hpcol⟩ := h8 (key, b) (alGet_mem hC) id hin
        have hgp := mem_alGet h1 (show (p.1, p.2) ∈ s.by_id from by simpa using hp)
        rw [hpid, hg] at hgp
        injection hgp with hh
        rw [← hh] at hprow hpcol
        simp only at hprow hpcol
        apply hk
        rw [hprow, hpcol]

/-- C2 counterexample: the claim promises index consistency after ANY
sequence of store mutations, in particular for whole-row-sentinel issues
across repeated `replace_for_columns` calls.  But re-submitting the same
whole-row issue in a second `replace_for_columns(["A"], ...)` call never
removes the first copy (only column "A" is pruned), while `_insert`
appends its id to the `__row__` bucket again: the single stored issue
then appears twice in its by-column bucket. -/
theorem store_index_consistency_cex :
    (alGet (applyOps IssueStore.empty
        [StoreOp.replaceForColumns ["A"] [c2RowIssue],
         StoreOp.replaceForColumns ["A"] [c2RowIssue]]).by_id "i1").isSome = true
    ∧ (alGetD (applyOps IssueStore.empty
        [StoreOp.replaceForColumns ["A"] [c2RowIssue],
         StoreOp.replaceForColumns ["A"] [c2RowIssue]]).by_col "__row__" []).count "i1"
      = 2 := by
  exact ⟨by decide, by decide⟩

/-- C2 (amended): after any sequence of `replace_all`,
`replace_for_columns` and `set_status` operations from the empty store in
which every inserted batch has pairwise-distinct ids and
`replace_for_columns` never inserts an issue whose id is already stored
under a column outside the replaced set (`OpsOk`), the store is
wellformed and every stored issue is keyed by its id, appears exactly
once in exactly one by-column bucket and exactly once in exactly one
by-cell bucket. -/
theorem store_index_consistency (ops : List StoreOp)
    (hok : OpsOk IssueStore.empty ops = true) :
    (applyOps IssueStore.empty ops).Wf ∧ (applyOps IssueStore.empty ops).ExactlyOnce := by
  have hwf := applyOps_wf ops IssueStore.empty empty_wf hok
  exact ⟨hwf, wf_exactlyOnce _ hwf⟩

/-- Witness for C2 at a concrete three-operation sequence. -/
theorem store_index_consistency_witness :
    OpsOk IssueStore.empty
        [StoreOp.replaceAll [wIssueA, wIssueB],
         StoreOp.replaceForColumns ["A"] [wIssueA2],
         StoreOp.setStatus "b1" IssueStatus.FIXED] = true
    ∧ (applyOps IssueStore.empty
        [StoreOp.replaceAll [wIssueA, wIssueB],
         StoreOp.replaceForColumns ["A"] [wIssueA2],
         StoreOp.setStatus "b1" IssueStatus.FIXED]).Wf
    ∧ (applyOps IssueStore.empty
        [StoreOp.replaceAll [wIssueA, wIssueB],
         StoreOp.replaceForColumns ["A"] [wIssueA2],
         StoreOp.setStatus "b1" IssueStatus.FIXED]).ExactlyOnce :=
  ⟨by decide, store_index_consistency _ (by decide)⟩

/-- C3: a column-scoped replace leaves every other column's issues
untouched: for a wellformed store and any column `colB` that is neither
in the replaced set nor the whole-row sentinel, every stored issue of
`colB` keeps its exact `by_id` entry (all fields, including status), and
the `by_col` bucket of `colB` and every `by_cell` bucket of a `colB`
cell are unchanged.  The freshness hypothesis (`freshOk`) rules out an
inserted issue overwriting a foreign id, which the spec's content-hash
id already guarantees for honestly created issues. -/
theorem partial_revalidation_isolation (s : IssueStore) (cols : List String)
    (issues : List Issue) (colB : String) (hwf : s.Wf)
    (hB : colB ∉ cols) (hBrow : colB ≠ wholeRowSentinel)
    (hnd : ((issues.filter (insertedFor cols)).map Issue.id).Nodup)
    (hfresh : ∀ i ∈ issues, insertedFor cols i = true → freshOk s cols i = true) :
    (∀ id issue, alGet s.by_id id = some issue → issue.col = colB →
        alGet (s.replace_for_columns cols issues).by_id id = some issue)
    ∧ alGet (s.replace_for_columns cols issues).by_col colB = alGet s.by_col colB
    ∧ (∀ row : Nat, alGet (s.replace_for_columns cols issues).by_cell (row, colB)
        = alGet s.by_cell (row, colB)) := by
  have hfresh' : ∀ i ∈ issues, insertedFor cols i = true →
      ∀ old, alGet s.by_id i.id = some old → old.col ∈ cols := by
    intro i hi hins old hold
    have h' := hfresh i hi hins
    simp only [freshOk, hold] at h'
    exact of_decide_eq_true h'
  obtain ⟨_, f2, f3, f4⟩ := replace_for_columns_facts s cols issues hwf hnd hfresh'
  refine ⟨?_, f3 colB hB hBrow, fun row => f4 (row, colB) hB hBrow⟩
  intro id issue hg hcol
  refine f2 id issue hg (hcol ▸ hB) ?_
  intro i hi hins he
  have hg' : alGet s.by_id i.id = some issue := by rw [he]; exact hg
  have hfr := hfresh' i hi hins issue hg'
  rw [hcol] at hfr
  exact hB hfr

/-- Witness for C3: a store holding issues for columns "A" and "B"; the
"B" issue survives `replace_for_columns(["A"], ...)` untouched. -/
theorem partial_revalidation_isolation_witness :
    (IssueStore.replace_all [wIssueA, wIssueB]).Wf
    ∧ "B" ∉ ["A"]
    ∧ alGet (IssueStore.replace_all [wIssueA, wIssueB]).by_id "b1" = some wIssueB
    ∧ alGet ((IssueStore.replace_all [wIssueA, wIssueB]).replace_for_columns ["A"]
        [wIssueA2]).by_id "b1" = some wIssueB :=
  ⟨by decide, by decide, by decide,
    (partial_revalidation_isolation (IssueStore.replace_all [wIssueA, wIssueB]) ["A"]
      [wIssueA2] "B" (by decide) (by decide) (by decide) (by decide) (by decide)).1
      "b1" wIssueB (by decide) (by decide)⟩

/-! ### Command/History lemmas -/
theorem setCell_self (df : DataFrame) (row : Nat) (col : String) (v : Value) :
    (df.setCell row col v).cells row col = v := by
  simp [DataFrame.setCell]

theorem execute_df (cmd : ApplyCellFixCommand) (w : World) :
    ((cmd.execute w).2).df = w.df.setCell cmd.row cmd.col cmd.new_value := by
  cases hi : issueIdTruthy cmd.issue_id <;>
    simp [ApplyCellFixCommand.execute, nowIso, hi]

theorem execute_store (cmd : ApplyCellFixCommand) (w : World) (iid : String)
    (hiss : cmd.issue_id = some iid) (hne : iid.isEmpty = false) :
    ((cmd.execute w).2).store = w.store.set_status iid IssueStatus.FIXED := by
  simp [ApplyCellFixCommand.execute, nowIso, hiss, issueIdTruthy, hne]

theorem execute_fst_fields (cmd : ApplyCellFixCommand) (w : World) :
    (cmd.execute w).1.row = cmd.row ∧ (cmd.execute w).1.col = cmd.col
    ∧ (cmd.execute w).1.old_value = cmd.old_value
    ∧ (cmd.execute w).1.new_value = cmd.new_value
    ∧ (cmd.execute w).1.issue_id = cmd.issue_id := by
  simp [ApplyCellFixCommand.execute, nowIso]

theorem undo_df (c : ApplyCellFixCommand) (w : World) :
    (c.undo w).df = w.df.setCell c.row c.col c.old_value := by
  cases hp : c.patch <;> cases hi : issueIdTruthy c.issue_id <;>
    simp [ApplyCellFixCommand.undo, hp, hi]

theorem undo_store (c : ApplyCellFixCommand) (w : World) (iid : String)
    (hiss : c.issue_id = some iid) (hne : iid.isEmpty = false) :
    (c.undo w).store = w.store.set_status iid IssueStatus.OPEN := by
  cases hp : c.patch <;>
    simp [ApplyCellFixCommand.undo, hp, hiss, issueIdTruthy, hne]

theorem set_status_statusOf (s : IssueStore) (id : String) (st : IssueStatus)
    (issue : Issue) (hg : alGet s.by_id id = some issue) :
    (s.set_status id st).statusOf id = some st := by
  simp [IssueStore.set_status, hg, IssueStore.statusOf, alGet_alSet_self]

theorem set_status_get (s : IssueStore) (id : String) (st : IssueStatus)
    (issue : Issue) (hg : alGet s.by_id id = some issue) :
    alGet (s.set_status id st).by_id id = some { issue with status := st } := by
  simp [IssueStore.set_status, hg, alGet_alSet_self]

theorem dequeAppend_split (maxlen : Nat) (hm : 1 ≤ maxlen) (st : List Command)
    (c : Command) : ∃ rest, dequeAppend maxlen st c = rest ++ [c] := by
  simp only [dequeAppend]
  by_cases hlen : maxlen < (st ++ [c]).length
  · rw [if_pos hlen]
    refine ⟨st.drop ((st ++ [c]).length - maxlen), ?_⟩
    rw [List.drop_append_of_le_length ?hle]
    case hle => simp; omega
  · rw [if_neg hlen]
    exact ⟨st, rfl⟩

theorem dequeAppend_nil (maxlen : Nat) (hm : 1 ≤ maxlen) (c : Command) :
    dequeAppend maxlen [] c = [c] := by
  simp only [dequeAppend, List.nil_append, List.length_singleton]
  rw [if_neg (by omega)]

theorem push_undo_redo_worlds (h0 : CommandHistory) (hd : 1 ≤ h0.max_depth)
    (w : World) (cmd : Command) :
    ((h0.push w cmd).1.undo (h0.push w cmd).2).2.2
        = Command.undoRun (cmd.execute w).1 (cmd.execute w).2
    ∧ (((h0.push w cmd).1.undo (h0.push w cmd).2).2.1.redo
         ((h0.push w cmd).1.undo (h0.push w cmd).2).2.2).2.2
        = (Command.execute (cmd.execute w).1
            (Command.undoRun (cmd.execute w).1 (cmd.execute w).2)).2 := by
  obtain ⟨rest, hdq⟩ := dequeAppend_split h0.max_depth hd h0.undo_stack (cmd.execute w).1
  have hpush : h0.push w cmd
      = ({ h0 with undo_stack := rest ++ [(cmd.execute w).1], redo_stack := [] },
         (cmd.execute w).2) := by
    simp [CommandHistory.push, hdq]
  have hundo : (h0.push w cmd).1.undo (h0.push w cmd).2
      = (some (cmd.execute w).1,
         { h0 with undo_stack := rest
                   redo_stack := dequeAppend h0.max_depth [] (cmd.execute w).1 },
         Command.undoRun (cmd.execute w).1 (cmd.execute w).2) := by
    rw [hpush]
    simp [CommandHistory.undo]
  rw [hundo]
  refine ⟨rfl, ?_⟩
  simp only [CommandHistory.redo, dequeAppend_nil h0.max_depth hd, List.reverse_cons,
    List.reverse_nil, List.nil_append]

/-! ## Claim theorems: C4 and C5 -/
/-- C4: undo/redo round trip of `ApplyCellFixCommand` (with `old_value`
equal to the current cell value and a referenced issue present in the
store): execute sets the cell to `new_value` and the issue to FIXED;
undo restores the exact pre-execute cell value and status OPEN; pushing
through `CommandHistory` then undoing and redoing reproduces the
post-execute cell value and status FIXED from the stored fields alone.
`BulkCellFixCommand` executes its sub-commands in list order and undoes
them in reverse list order. -/
theorem undo_redo_round_trip (w : World) (cmd : ApplyCellFixCommand)
    (h0 : CommandHistory) (iid : String) (issue : Issue)
    (hold : w.df.cells cmd.row cmd.col = cmd.old_value)
    (hiss : cmd.issue_id = some iid)
    (hne : iid.isEmpty = false)
    (hstore : alGet w.store.by_id iid = some issue)
    (hd : 1 ≤ h0.max_depth) :
    ((cmd.execute w).2.df.cells cmd.row cmd.col = cmd.new_value
      ∧ (cmd.execute w).2.store.statusOf iid = some IssueStatus.FIXED)
    ∧ (((cmd.execute w).1.undo (cmd.execute w).2).df.cells cmd.row cmd.col
          = w.df.cells cmd.row cmd.col
      ∧ ((cmd.execute w).1.undo (cmd.execute w).2).store.statusOf iid
          = some IssueStatus.OPEN)
    ∧ (((((h0.push w (Command.applyCellFix cmd)).1.undo
            (h0.push w (Command.applyCellFix cmd)).2).2.1.redo
          ((h0.push w (Command.applyCellFix cmd)).1.undo
            (h0.push w (Command.applyCellFix cmd)).2).2.2).2.2.df.cells cmd.row cmd.col
          = cmd.new_value)
      ∧ ((((h0.push w (Command.applyCellFix cmd)).1.undo
            (h0.push w (Command.applyCellFix cmd)).2).2.1.redo
          ((h0.push w (Command.applyCellFix cmd)).1.undo
            (h0.push w (Command.applyCellFix cmd)).2).2.2).2.2.store.statusOf iid
          = some IssueStatus.FIXED))
    ∧ (∀ (c : ApplyCellFixCommand) (cs : List ApplyCellFixCommand) (w' : World),
        bulkExecute (c :: cs) w'
          = ((c.execute w').1 :: (bulkExecute cs (c.execute w').2).1,
             (bulkExecute cs (c.execute w').2).2))
    ∧ (∀ (cs : List ApplyCellFixCommand) (c : ApplyCellFixCommand) (w' : World),
        bulkUndo (cs ++ [c]) w' = bulkUndo cs (c.undo w')) := by
  obtain ⟨f1, f2, f3, f4, f5⟩ := execute_fst_fields cmd w
  have hc1iss : (cmd.execute w).1.issue_id = some iid := f5.trans hiss
  have hw1store : (cmd.execute w).2.store = w.store.set_status iid IssueStatus.FIXED :=
    execute_store cmd w iid hiss hne
  have hw1get : alGet (cmd.execute w).2.store.by_id iid
      = some { issue with status := IssueStatus.FIXED } := by
    rw [hw1store]
    exact set_status_get w.store iid _ issue hstore
  have hexec_cell : (cmd.execute w).2.df.cells cmd.row cmd.col = cmd.new_value := by
    rw [execute_df]
    exact setCell_self _ _ _ _
  have hexec_status : (cmd.execute w).2.store.statusOf iid = some IssueStatus.FIXED := by
    rw [hw1store]
    exact set_status_statusOf w.store iid _ issue hstore
  have hundo_cell : ((cmd.execute w).1.undo (cmd.execute w).2).df.cells cmd.row cmd.col
      = w.df.cells cmd.row cmd.col := by
    rw [undo_df, f1, f2, f3, setCell_self, hold]
  have hundo_store : ((cmd.execute w).1.undo (cmd.execute w).2).store
      = (cmd.execute w).2.store.set_status iid IssueStatus.OPEN :=
    undo_store (cmd.execute w).1 (cmd.execute w).2 iid hc1iss hne
  have hundo_status : ((cmd.execute w).1.undo (cmd.execute w).2).store.statusOf iid
      = some IssueStatus.OPEN := by
    rw [hundo_store]
    exact set_status_statusOf _ iid IssueStatus.OPEN
      { issue with status := IssueStatus.FIXED } hw1get
  have hundo_get : alGet ((cmd.execute w).1.undo (cmd.execute w).2).store.by_id iid
      = some { issue with status := IssueStatus.OPEN } := by
    rw [hundo_store]
    exact set_status_get _ iid IssueStatus.OPEN
      { issue with status := IssueStatus.FIXED } hw1get
  obtain ⟨hw2, hw3⟩ := push_undo_redo_worlds h0 hd w (Command.applyCellFix cmd)
  have hcmdexec : Command.execute (Command.applyCellFix cmd) w
      = (Command.applyCellFix (cmd.execute w).1, (cmd.execute w).2) := by
    simp [Command.execute]
  have hw2' : ((h0.push w (Command.applyCellFix cmd)).1.undo
      (h0.push w (Command.applyCellFix cmd)).2).2.2
      = (cmd.execute w).1.undo (cmd.execute w).2 := by
    rw [hw2, hcmdexec]
    simp [Command.undoRun]
  have hredo_world : (((h0.push w (Command.applyCellFix cmd)).1.undo
        (h0.push w (Command.applyCellFix cmd)).2).2.1.redo
      ((h0.push w (Command.applyCellFix cmd)).1.undo
        (h0.push w (Command.applyCellFix cmd)).2).2.2).2.2
      = ((cmd.execute w).1.execute ((cmd.execute w).1.undo (cmd.execute w).2)).2 := by
    rw [hw3, hcmdexec]
    simp [Command.execute, Command.undoRun]
  have hredo_cell : ((cmd.execute w).1.execute
      ((cmd.execute w).1.undo (cmd.execute w).2)).2.df.cells cmd.row cmd.col
      = cmd.new_value := by
    rw [execute_df, f1, f2, f4, setCell_self]
  have hredo_status : ((cmd.execute w).1.execute
      ((cmd.execute w).1.undo (cmd.execute w).2)).2.store.statusOf iid
      = some IssueStatus.FIXED := by
    rw [execute_store (cmd.execute w).1 _ iid hc1iss hne]
    exact set_status_statusOf _ iid IssueStatus.FIXED
      { issue with status := IssueStatus.OPEN } hundo_get
  refine ⟨⟨hexec_cell, hexec_status⟩, ⟨hundo_cell, hundo_status⟩, ⟨?_, ?_⟩, ?_, ?_⟩
  · rw [hredo_world]
    exact hredo_cell
  · rw [hredo_world]
    exact hredo_status
  · intro c cs w'
    simp [bulkExecute]
  · intro cs c w'
    simp [bulkUndo, List.reverse_append]

/-- C5: pushing any command clears the redo stack, redo on an empty redo
stack is a no-op returning none, and hence undo followed by push leaves
a state where redo is a no-op. -/
theorem redo_invalidation (h : CommandHistory) (w : World) (cmd : Command)
    (h' : CommandHistory) (w' : World) (newCmd : Command) :
    (h.push w cmd).1.redo_stack = []
    ∧ (h'.redo_stack = [] → h'.redo w' = (none, h', w'))
    ∧ (((h.undo w).2.1.push (h.undo w).2.2 newCmd).1.redo
        ((h.undo w).2.1.push (h.undo w).2.2 newCmd).2
      = (none,
         ((h.undo w).2.1.push (h.undo w).2.2 newCmd).1,
         ((h.undo w).2.1.push (h.undo w).2.2 newCmd).2)) := by
  have hredo_empty : ∀ (hh : CommandHistory) (ww : World), hh.redo_stack = [] →
      hh.redo ww = (none, hh, ww) := by
    intro hh ww hr
    simp [CommandHistory.redo, hr]
  refine ⟨rfl, hredo_empty h' w', ?_⟩
  exact hredo_empty _ _ rfl

/-- Witness for C4 at Scenario A of the spec ("Intro " → "Intro"). -/
theorem undo_redo_round_trip_witness :
    wWorld.df.cells wFixCmd.row wFixCmd.col = wFixCmd.old_value
    ∧ (wFixCmd.execute wWorld).2.df.cells wFixCmd.row wFixCmd.col = wFixCmd.new_value
    ∧ ((wFixCmd.execute wWorld).1.undo (wFixCmd.execute wWorld).2).df.cells
        wFixCmd.row wFixCmd.col = wWorld.df.cells wFixCmd.row wFixCmd.col :=
  ⟨rfl,
   (undo_redo_round_trip wWorld wFixCmd {} "i1" wIssueFix rfl rfl rfl (by decide)
     (by decide)).1.1,
   (undo_redo_round_trip wWorld wFixCmd {} "i1" wIssueFix rfl rfl rfl (by decide)
     (by decide)).2.1.1⟩

/-- Witness for C5 at a concrete history/world. -/
theorem redo_invalidation_witness :
    ((CommandHistory.mk 500 [] []).push wWorld
        (Command.setIssueStatus ⟨"i1", IssueStatus.IGNORED, IssueStatus.OPEN⟩)).1.redo_stack
      = []
    ∧ ((CommandHistory.mk 500 [] []).redo_stack = [] →
        (CommandHistory.mk 500 [] []).redo wWorld
          = (none, CommandHistory.mk 500 [] [], wWorld)) :=
  ⟨(redo_invalidation (CommandHistory.mk 500 [] []) wWorld
      (Command.setIssueStatus ⟨"i1", IssueStatus.IGNORED, IssueStatus.OPEN⟩)
      (CommandHistory.mk 500 [] []) wWorld
      (Command.setIssueStatus ⟨"i1", IssueStatus.IGNORED, IssueStatus.OPEN⟩)).1,
   (redo_invalidation (CommandHistory.mk 500 [] []) wWorld
      (Command.setIssueStatus ⟨"i1", IssueStatus.IGNORED, IssueStatus.OPEN⟩)
      (CommandHistory.mk 500 [] []) wWorld
      (Command.setIssueStatus ⟨"i1", IssueStatus.IGNORED, IssueStatus.OPEN⟩)).2.1⟩

/-! ### Engine lemmas -/
theorem pyPop_fst (d : List (String × JVal)) (k : String) (dflt : JVal) :
    (pyPop d k dflt).1 = (alGet d k).getD dflt := by
  cases h : alGet d k <;> simp [pyPop, h]

theorem pyPop_snd_get (d : List (String × JVal)) (k : String) (dflt : JVal)
    (hnd : (alKeys d).Nodup) : alGet (pyPop d k dflt).2 k = none := by
  cases h : alGet d k with
  | none => simpa [pyPop, h] using h
  | some v => simp [pyPop, h, alGet_alErase_self d hnd k]

theorem alGet_append {κ α : Type} [DecidableEq κ] (x y : List (κ × α)) (k : κ) :
    alGet (x ++ y) k = (alGet x k).orElse (fun _ => alGet y k) := by
  induction x with
  | nil => simp [alGet]
  | cons p rest ih =>
      obtain ⟨k0, v0⟩ := p
      by_cases h0 : k0 = k <;> simp [alGet, h0, ih]

theorem alGet_map_value {κ α : Type} [DecidableEq κ] (a : List (κ × α)) (g : κ → α → α)
    (k : κ) : alGet (a.map (fun p => (p.1, g p.1 p.2))) k = (alGet a k).map (g k) := by
  induction a with
  | nil => simp [alGet]
  | cons p rest ih =>
      obtain ⟨k0, v0⟩ := p
      by_cases h0 : k0 = k
      · subst h0
        simp [alGet]
      · simp [alGet, h0, ih]

theorem alGet_filter_key {κ α : Type} [DecidableEq κ] (b : List (κ × α)) (pred : κ → Bool)
    (k : κ) : alGet (b.filter (fun p => pred p.1)) k = if pred k then alGet b k else none := by
  induction b with
  | nil => simp [alGet]
  | cons p rest ih =>
      obtain ⟨k0, v0⟩ := p
      by_cases hp : pred k0
      · by_cases h0 : k0 = k
        · subst h0
          simp [List.filter_cons, hp, alGet, ih]
        · simp [List.filter_cons, hp, alGet, h0, ih]
      · by_cases h0 : k0 = k
        · subst h0
          simp [List.filter_cons, hp, alGet, ih]
        · simp [List.filter_cons, hp, alGet, h0, ih]

theorem alGet_filter_ne_key {κ α : Type} [DecidableEq κ] (b : List (κ × α)) (bad : κ)
    (k : κ) (h : k ≠ bad) :
    alGet (b.filter (fun p => p.1 != bad)) k = alGet b k := by
  induction b with
  | nil => simp [alGet]
  | cons p rest ih =>
      obtain ⟨k0, v0⟩ := p
      by_cases hb : k0 = bad
      · subst hb
        have h0 : ¬ k0 = k := fun hh => h hh.symm
        simp [List.filter_cons, alGet, h0, ih]
      · by_cases h0 : k0 = k
        · subst h0
          simp [List.filter_cons, alGet, hb, ih]
        · simp [List.filter_cons, alGet, hb, h0, ih]

theorem alGet_pyDictMerge (a b : List (String × JVal)) (k : String) :
    alGet (pyDictMerge a b) k = (alGet b k).orElse (fun _ => alGet a k) := by
  rw [pyDictMerge, alGet_append,
    alGet_map_value a (fun key v => (alGet b key).getD v) k,
    alGet_filter_key b (fun key => (alGet a key).isNone) k]
  cases ha : alGet a k <;> cases hb : alGet b k <;> simp [ha, hb]

theorem mergedCfg_enabled (config : List (String × JVal)) (rule_id col : String)
    (hnd : (alKeys (getDictD (getDictD config "rules") rule_id)).Nodup) :
    truthy (pyPop (mergedCfgFor config rule_id col) "enabled" (JVal.bool true)).1
      = effectiveEnabled config rule_id col := by
  rw [pyPop_fst]
  simp only [mergedCfgFor]
  rw [alGet_pyDictMerge, alGet_pyDictMerge]
  have hres : alGet (ruleCfgFor config rule_id).2 "enabled" = none := by
    rw [ruleCfgFor]
    exact pyPop_snd_get _ _ _ hnd
  have hmeta : alGet ((getDictD (getDictD config "columns") col).filter
      (fun p => p.1 != "rule_overrides")) "enabled"
      = alGet (getDictD (getDictD config "columns") col) "enabled" :=
    alGet_filter_ne_key _ _ _ (by simp)
  rw [hres, hmeta]
  simp only [effectiveEnabled]
  cases hov : alGet (getDictD (getDictD (getDictD (getDictD config "columns") col)
      "rule_overrides") rule_id) "enabled" <;>
    cases hcc : alGet (getDictD (getDictD config "columns") col) "enabled" <;>
      simp [hov, hcc]

theorem foldl_append_form {β : Type} (f : β → List Issue) (l : List β) (acc : List Issue) :
    l.foldl (fun acc b => acc ++ f b) acc = acc ++ (l.map f).flatten := by
  induction l generalizing acc with
  | nil => simp
  | cons b bs ih => simp [List.foldl_cons, ih]

theorem foldl_ext {α β : Type} (g1 g2 : α → β → α) (l : List β)
    (h : ∀ acc b, g1 acc b = g2 acc b) (acc : α) : l.foldl g1 acc = l.foldl g2 acc := by
  induction l generalizing acc with
  | nil => rfl
  | cons b bs ih =>
      simp only [List.foldl_cons]
      rw [h]
      exact ih _

theorem rulesCfgWf_all (config : List (String × JVal)) (hnd : rulesCfgWf config) :
    ∀ rid, (alKeys (getDictD (getDictD config "rules") rid)).Nodup := by
  intro rid
  have hgen : ∀ (d : List (String × JVal)), (∀ p ∈ d, dictKeysNodup p.2) →
      (alKeys (getDictD d rid)).Nodup := by
    intro d hd
    cases hg : alGet d rid with
    | none => simp [getDictD, hg, alKeys]
    | some v =>
        cases v with
        | dict dd =>
            have hv := hd (rid, JVal.dict dd) (alGet_mem hg)
            simpa [getDictD, hg, dictKeysNodup] using hv
        | null => simp [getDictD, hg, alKeys]
        | bool b => simp [getDictD, hg, alKeys]
        | int n => simp [getDictD, hg, alKeys]
        | str s => simp [getDictD, hg, alKeys]
        | list xs => simp [getDictD, hg, alKeys]
  exact hgen (getDictD config "rules") hnd

theorem validate_eq_contributions (reg : List RuleDef) (df : DataFrame)
    (columns : Option (List String)) (config : List (String × JVal))
    (hnd : rulesCfgWf config) :
    validate reg df columns config = (reg.map (ruleContribution df columns config)).flatten := by
  have hndAll := rulesCfgWf_all config hnd
  have hruleg : ∀ rule_id, truthy (ruleCfgFor config rule_id).1 = ruleEnabled config rule_id := by
    intro rule_id
    rw [ruleCfgFor, pyPop_fst]
    rfl
  have houter : ∀ (acc : List Issue) (rule : RuleDef),
      (fun all_issues rule =>
        let rc := ruleCfgFor config rule.rule_id
        if !truthy rc.1 then all_issues
        else if rule.per_column then
          (columns.getD df.columns).foldl
            (fun acc col =>
              let mc := pyPop (mergedCfgFor config rule.rule_id col) "enabled" (JVal.bool true)
              if !truthy mc.1 then acc
              else acc ++ exceptIssues (rule.check df (some col) mc.2))
            all_issues
        else
          match columns with
          | some _ => all_issues
          | none => all_issues ++ exceptIssues (rule.check df none (ruleCfgFor config rule.rule_id).2))
        acc rule
      = acc ++ ruleContribution df columns config rule := by
    intro acc rule
    simp only [hruleg]
    by_cases hre : ruleEnabled config rule.rule_id
    · simp only [hre, Bool.not_true, if_false, Bool.false_eq_true]
      by_cases hpc : rule.per_column
      · simp only [hpc, if_true]
        have hbody : ∀ (a : List Issue) (col : String),
            (fun acc col =>
              let mc := pyPop (mergedCfgFor config rule.rule_id col) "enabled" (JVal.bool true)
              if !truthy mc.1 then acc
              else acc ++ exceptIssues (rule.check df (some col) mc.2)) a col
            = a ++ pairIssues df config rule col := by
          intro a col
          simp only [mergedCfg_enabled config rule.rule_id col (hndAll rule.rule_id)]
          by_cases hg : effectiveEnabled config rule.rule_id col
          · simp [pairIssues, hg]
          · simp [pairIssues, hg]
        rw [foldl_ext _ _ _ hbody, foldl_append_form]
        simp [ruleContribution, hre, hpc]
      · simp only [hpc, if_false]
        cases columns with
        | none => simp [ruleContribution, hre, hpc]
        | some lst => simp [ruleContribution, hre, hpc]
    · have hre' : ruleEnabled config rule.rule_id = false := by
        simpa using hre
      simp [hre', ruleContribution]
  rw [validate]
  rw [foldl_ext _ _ _ houter]
  rw [show (fun (acc : List Issue) (rule : RuleDef) =>
      acc ++ ruleContribution df columns config rule)
    = (fun acc rule => acc ++ (fun r => ruleContribution df columns config r) rule) from rfl]
  rw [foldl_append_form]
  simp

theorem map_congr_on {β γ : Type} (l : List β) (f g : β → γ) (h : ∀ b ∈ l, f b = g b) :
    l.map f = l.map g := by
  induction l with
  | nil => rfl
  | cons b bs ih =>
      simp only [List.map_cons]
      rw [h b (List.mem_cons_self _ _), ih (fun x hx => h x (List.mem_cons_of_mem _ hx))]

theorem flatten_map_filter {β : Type} (pred : β → Bool) (f : β → List Issue) (l : List β)
    (h : ∀ b ∈ l, pred b = false → f b = []) :
    (l.map f).flatten = ((l.filter pred).map f).flatten := by
  induction l with
  | nil => rfl
  | cons b bs ih =>
      simp only [List.map_cons, List.flatten_cons, List.filter_cons]
      cases hp : pred b with
      | true =>
          simp only [if_true]
          rw [List.map_cons, List.flatten_cons,
            ih (fun x hx hfx => h x (List.mem_cons_of_mem _ hx) hfx)]
      | false =>
          rw [h b (List.mem_cons_self _ _) hp]
          simp only [List.nil_append, if_false]
          exact ih (fun x hx hfx => h x (List.mem_cons_of_mem _ hx) hfx)

/-- C6 counterexample: the claim says `enabled = false` at any layer is
authoritative and skips the (rule, column) pair even if a later layer
sets `enabled = true`.  With the column layer disabled but the
rule-override layer enabled, the merge's last-writer-wins semantics runs
the rule anyway and its issue is returned. -/
theorem enabled_gating_cex : validate [cexRule] cexDf none cexConfig = [cexIssue] := by
  decide

/-- C6 (amended): the engine's effective config for a (rule, column)
pair is the in-order merge of `rules[rule_id]` minus `enabled`,
`columns[col]` minus `rule_overrides`, and
`columns[col].rule_overrides[rule_id]`.  The rules-layer `enabled`
(popped before the merge) is authoritative: when falsy the rule is
skipped for all columns even if later layers set true.  Between the
remaining layers the gate is last-writer-wins, not conjunctive: the pair
runs iff the override's `enabled` if present, else the column's
`enabled` if present, else true, is truthy. -/
theorem enabled_gating (reg : List RuleDef) (df : DataFrame)
    (columns : Option (List String)) (config : List (String × JVal))
    (hnd : rulesCfgWf config) :
    validate reg df columns config = (reg.map (ruleContribution df columns config)).flatten
    ∧ (∀ rule ∈ reg, ruleEnabled config rule.rule_id = false →
        ruleContribution df columns config rule = [])
    ∧ (∀ rule_id col,
        truthy (pyPop (mergedCfgFor config rule_id col) "enabled" (JVal.bool true)).1
          = effectiveEnabled config rule_id col) :=
  ⟨validate_eq_contributions reg df columns config hnd,
   fun rule _ hre => by simp [ruleContribution, hre],
   fun rule_id col => mergedCfg_enabled config rule_id col (rulesCfgWf_all config hnd rule_id)⟩

/-- Witness for C6 at the counterexample's config. -/
theorem enabled_gating_witness :
    rulesCfgWf cexConfig
    ∧ validate [cexRule] cexDf none cexConfig
        = (([cexRule]).map (ruleContribution cexDf none cexConfig)).flatten :=
  ⟨by decide, (enabled_gating [cexRule] cexDf none cexConfig (by decide)).1⟩

/-- C7: partial-run scoping.  With `columns = some lst`, whole-table
rules are skipped entirely (the run equals the run over only the
per-column rules) and per-column rules run only over the listed columns;
with `columns = none`, per-column rules run once per actual dataset
column and whole-table rules run exactly once on their residual rule
config. -/
theorem partial_run_scoping (reg : List RuleDef) (df : DataFrame)
    (config : List (String × JVal)) (lst : List String) (hnd : rulesCfgWf config) :
    (validate reg df (some lst) config
      = validate (reg.filter (fun r => r.per_column)) df (some lst) config)
    ∧ (validate reg df (some lst) config
      = ((reg.filter (fun r => r.per_column)).map (fun rule =>
          if ruleEnabled config rule.rule_id then
            (lst.map (pairIssues df config rule)).flatten
          else [])).flatten)
    ∧ (validate reg df none config
      = (reg.map (fun rule =>
          if ruleEnabled config rule.rule_id then
            if rule.per_column then (df.columns.map (pairIssues df config rule)).flatten
            else exceptIssues (rule.check df none (ruleCfgFor config rule.rule_id).2)
          else [])).flatten) := by
  have hchar := validate_eq_contributions reg df (some lst) config hnd
  have hcharf := validate_eq_contributions (reg.filter (fun r => r.per_column)) df
    (some lst) config hnd
  have hcharn := validate_eq_contributions reg df none config hnd
  have hglobal : ∀ rule ∈ reg, rule.per_column = false →
      ruleContribution df (some lst) config rule = [] := by
    intro rule _ hpc
    cases hre : ruleEnabled config rule.rule_id <;> simp [ruleContribution, hpc, hre]
  refine ⟨?_, ?_, ?_⟩
  · rw [hchar, hcharf]
    exact flatten_map_filter (fun r => r.per_column) _ reg hglobal
  · rw [hchar, flatten_map_filter (fun r => r.per_column) _ reg hglobal]
    congr 1
    refine map_congr_on _ _ _ ?_
    intro rule hrule
    have hpc : rule.per_column = true := (List.mem_filter.mp hrule).2
    cases hre : ruleEnabled config rule.rule_id <;>
      simp [ruleContribution, hpc, hre]
  · rw [hcharn]
    congr 1

theorem partial_run_scoping_witness :
    rulesCfgWf cexConfig
    ∧ validate [cexRule, cexGlobalRule] cexDf (some ["C"]) cexConfig
        = validate (([cexRule, cexGlobalRule]).filter (fun r => r.per_column)) cexDf
            (some ["C"]) cexConfig :=
  ⟨by decide,
   (partial_run_scoping [cexRule, cexGlobalRule] cexDf cexConfig ["C"] (by decide)).1⟩

/-- C8: rule-failure isolation.  The run decomposes around any rule: the
rules before and after it contribute exactly their own runs, and a
(rule, column) pair whose `check` raises contributes zero issues (for a
whole-table rule, a raising check likewise contributes zero issues on a
full run). -/
theorem rule_failure_isolation (pre post : List RuleDef) (r : RuleDef) (df : DataFrame)
    (columns : Option (List String)) (config : List (String × JVal))
    (hnd : rulesCfgWf config) :
    (validate (pre ++ r :: post) df columns config
      = validate pre df columns config ++ ruleContribution df columns config r
          ++ validate post df columns config)
    ∧ (∀ col e, r.check df (some col)
          (pyPop (mergedCfgFor config r.rule_id col) "enabled" (JVal.bool true)).2
          = Except.error e → pairIssues df config r col = [])
    ∧ (r.per_column = false → columns = none →
        ∀ e, r.check df none (ruleCfgFor config r.rule_id).2 = Except.error e →
          ruleContribution df columns config r = []) := by
  refine ⟨?_, ?_, ?_⟩
  · rw [validate_eq_contributions (pre ++ r :: post) df columns config hnd,
      validate_eq_contributions pre df columns config hnd,
      validate_eq_contributions post df columns config hnd]
    simp [List.map_append, List.flatten_append]
  · intro col e herr
    cases hg : effectiveEnabled config r.rule_id col <;>
      simp [pairIssues, hg, herr, exceptIssues]
  · intro hpc hcols e herr
    subst hcols
    cases hre : ruleEnabled config r.rule_id <;>
      simp [ruleContribution, hre, hpc, herr, exceptIssues]

/-- Witness for C8: the failing pair (r.fail, "B") contributes zero
issues while the run still decomposes around the rule. -/
theorem rule_failure_isolation_witness :
    rulesCfgWf ([] : List (String × JVal))
    ∧ failRule.check cexDf2 (some "B")
        (pyPop (mergedCfgFor [] failRule.rule_id "B") "enabled" (JVal.bool true)).2
        = Except.error "boom"
    ∧ pairIssues cexDf2 [] failRule "B" = []
    ∧ validate ([cexRule] ++ failRule :: []) cexDf2 none []
        = validate [cexRule] cexDf2 none [] ++ ruleContribution cexDf2 none [] failRule
            ++ validate [] cexDf2 none [] :=
  ⟨by decide, rfl,
   (rule_failure_isolation [cexRule] [] failRule cexDf2 none [] (by decide)).2.1 "B" "boom"
     rfl,
   (rule_failure_isolation [cexRule] [] failRule cexDf2 none [] (by decide)).1⟩

end SpreadsheetQA
